import Mathlib

set_option maxRecDepth 10000

/-!
Verification development for the adaptive retrieval-and-batching RAG core:
intent classification (`query_router.py`, `retriever.py`), batch planning
(`query_router.py`), partitioned retrieval and truncation (`retriever.py`,
`vector_store.py`), and result aggregation (`result_aggregator.py`).

Python strings are modelled as Lean `String` (character-based, as Python's
`str` slicing and `len` are), machine integers as `Nat`, Python floats that
only ever feed into order comparisons with exact decimal literals as `ℚ`
(the decimals involved, such as `0.8`, are far from any rounding boundary of
the values compared, so the orderings agree), Python `set` as `Finset`,
Python `dict` (insertion ordered) as association lists, raised exceptions as
`Option`/`none`.
-/

/-! ### String helpers mirroring the Python primitives -/

/-- Python `sub in s` (contiguous substring containment). -/
def strContains (s sub : String) : Bool :=
  decide (sub.data <:+: s.data)

/-- Python `str.strip()`: drop leading and trailing whitespace. -/
def pyStrip (s : String) : String :=
  ⟨((s.data.dropWhile Char.isWhitespace).reverse.dropWhile Char.isWhitespace).reverse⟩

/-- Python `s[:n]` character slicing. -/
def pyTake (s : String) (n : ℕ) : String :=
  ⟨s.data.take n⟩

/-! ### `ResultAggregator._calculate_similarity` and `_deduplicate_targets`
(`result_aggregator.py`) -/

/-- The numerator of `_calculate_similarity`:
`sum(1 for c in text1 if c in text2)` — every character position of
`text1` whose character occurs in `text2` counts, with multiplicity. -/
def commonCharCount (text1 text2 : String) : ℕ :=
  text1.data.countP (fun c => text2.data.contains c)

/-- `ResultAggregator._calculate_similarity`: the common-character count
divided by the larger length; `0.0` when either string is empty. -/
def calculateSimilarity (text1 text2 : String) : ℚ :=
  if text1.data = [] ∨ text2.data = [] then 0
  else if 0 < max text1.length text2.length then
    (commonCharCount text1 text2 : ℚ) / (max text1.length text2.length : ℚ)
  else 0

/-- Similarity as the spec's words describe it (for comparison with the
source formula): distinct characters of `a` that also occur in `b`, divided
by `max(len a, len b)`. -/
def specSimilarity (text1 text2 : String) : ℚ :=
  if text1.data = [] ∨ text2.data = [] then 0
  else if 0 < max text1.length text2.length then
    (text1.data.dedup.countP (fun c => text2.data.contains c) : ℚ) /
      (max text1.length text2.length : ℚ)
  else 0

/-- The comparison `self._calculate_similarity(target, existing) > 0.8`
from `_deduplicate_targets`, in cross-multiplied integer form so that it is
kernel-computable; `similarityAbove_iff` (below) proves it equivalent to
`0.8 < calculateSimilarity target existing`.  The decimal `0.8` and the
quotients compared are exactly representable gaps apart, so the Python
float comparison agrees with the exact rational one. -/
def similarityAbove (target existing : String) : Bool :=
  if target.data = [] ∨ existing.data = [] then false
  else decide (4 * max target.length existing.length < 5 * commonCharCount target existing)

/-- Python `list(dict.fromkeys(targets))`: drop exact duplicates, keeping
the first occurrence of each string, order otherwise preserved. -/
def dedupKeepFirst (targets : List String) : List String :=
  targets.foldl (fun acc x => if x ∈ acc then acc else acc ++ [x]) []

/-- One iteration of the near-duplicate collapse loop body in
`_deduplicate_targets`: scan `final` for the first `existing` with
similarity above `0.8` to `target`; replace it when `target` is strictly
longer, drop `target` otherwise; append `target` when nothing matches. -/
def collapseStep (final : List String) (target : String) : List String :=
  match final.find? (fun existing => similarityAbove target existing) with
  | some existing =>
      if existing.length < target.length then (final.erase existing) ++ [target]
      else final
  | none => final ++ [target]

/-- `ResultAggregator._deduplicate_targets`: exact duplicates collapse
first (stable, first seen wins), then the pairwise near-duplicate collapse. -/
def deduplicateTargets (targets : List String) : List String :=
  (dedupKeepFirst targets).foldl collapseStep []

/-! ### Static configuration (`config/config.example.py`) -/

/-- `PROVINCES`: the 31 canonical entity names. -/
def PROVINCES : List String :=
  ["北京", "天津", "河北", "山西", "内蒙古", "辽宁", "吉林", "黑龙江",
   "上海", "江苏", "浙江", "安徽", "福建", "江西", "山东", "河南",
   "湖北", "湖南", "广东", "广西", "海南", "重庆", "四川", "贵州",
   "云南", "西藏", "陕西", "甘肃", "青海", "宁夏", "新疆"]

/-- `QUERY_CONFIG["batch_size"]`. -/
def queryConfigBatchSize : ℕ := 8

/-- `[p for p in PROVINCES if p in query]`, shared by both intent
classifiers (mention order is `PROVINCES` order). -/
def mentionedProvinces (query : String) : List String :=
  PROVINCES.filter (fun p => strContains query p)

/-! ### `QueryRouter._identify_intent` (`query_router.py`) -/

def routerAllProvincesKeywords : List String := ["所有省份", "各省", "31省", "全国"]

def routerComparisonKeywords : List String := ["对比", "比较"]

def routerStatisticsKeywords : List String := ["统计", "汇总", "总结"]

structure RouterIntent where
  type : String
  provinces : List String
  topics : List String
  actions : List String
deriving DecidableEq, Repr

/-- The topic keyword table of `_identify_intent`, in dict order. -/
def routerTopicKeywords : List (String × List String) :=
  [("economic", ["经济", "GDP", "产业", "发展"]),
   ("social", ["社会", "民生", "教育", "医疗"]),
   ("environment", ["环境", "生态", "绿色"]),
   ("targets", ["目标", "任务", "重点", "计划"])]

/-- `QueryRouter._identify_intent`: if/elif precedence for `type`,
then independent topic and action detection. -/
def identifyIntent (query : String) : RouterIntent :=
  let t :=
    if routerAllProvincesKeywords.any (fun k => strContains query k) then "all_provinces"
    else if (mentionedProvinces query).length = 1 then "single_province"
    else if 1 < (mentionedProvinces query).length then "multi_province"
    else if routerComparisonKeywords.any (fun k => strContains query k) then "comparison"
    else if routerStatisticsKeywords.any (fun k => strContains query k) then "statistics"
    else "general"
  let topics := (routerTopicKeywords.filter
    (fun tk => tk.2.any (fun k => strContains query k))).map (fun tk => tk.1)
  let actions :=
    (if (["列出", "列举", "显示"] : List String).any (fun k => strContains query k)
      then ["list"] else []) ++
    (if (["分析", "解析"] : List String).any (fun k => strContains query k)
      then ["analyze"] else []) ++
    (if (["对比", "比较"] : List String).any (fun k => strContains query k)
      then ["compare"] else [])
  { type := t, provinces := mentionedProvinces query, topics := topics, actions := actions }

/-! ### `RAGRetriever.identify_query_intent` (`retriever.py`) -/

def retrieverAllProvincesKeywords : List String := ["所有省份", "全部省份", "各省", "31省", "全国"]

def retrieverComparisonKeywords : List String := ["对比", "比较", "差异", "区别", "异同"]

def retrieverStatisticsKeywords : List String := ["统计", "数量", "总计", "汇总", "分析"]

/-- The retriever topic keyword table restricted to the topics scanned by
`identify_query_intent`, in dict order. -/
def retrieverTopicKeywords : List (String × List String) :=
  [("targets", ["目标", "任务", "重点", "计划", "规划"]),
   ("economic", ["经济", "GDP", "产业", "发展", "增长"]),
   ("social", ["社会", "民生", "教育", "医疗", "就业"]),
   ("environment", ["环境", "生态", "绿色", "污染", "碳"])]

structure RetrieverIntent where
  type : String
  provinces : List String
  topics : List String
  scope : String
deriving DecidableEq, Repr

/-- `RAGRetriever.identify_query_intent`: the intent dict starts as
`general` and each later check overwrites `type` when its keywords match
(no elif chain, unlike the router version). -/
def identifyQueryIntent (query : String) : RetrieverIntent :=
  let t0 := "general"
  let s0 := "general"
  let t1 := if retrieverAllProvincesKeywords.any (fun k => strContains query k)
    then "all_provinces" else t0
  let s1 := if retrieverAllProvincesKeywords.any (fun k => strContains query k)
    then "comprehensive" else s0
  let t2 := if mentionedProvinces query ≠ [] then
      (if (mentionedProvinces query).length = 1 then "single_province" else "multi_province")
    else t1
  let t3 := if retrieverComparisonKeywords.any (fun k => strContains query k)
    then "comparison" else t2
  let t4 := if retrieverStatisticsKeywords.any (fun k => strContains query k)
    then "statistics" else t3
  let topics := (retrieverTopicKeywords.filter
    (fun tk => tk.2.any (fun k => strContains query k))).map (fun tk => tk.1)
  { type := t4, provinces := mentionedProvinces query, topics := topics, scope := s1 }

/-- The effective precedence of `identify_query_intent` spelled out as a
single conditional (statistics wins, then comparison, then entity
mentions, then comprehensive scope): a clean characterization to compare
the mutation-style source against. -/
def retrieverTypeSpelledOut (query : String) : String :=
  if retrieverStatisticsKeywords.any (fun k => strContains query k) then "statistics"
  else if retrieverComparisonKeywords.any (fun k => strContains query k) then "comparison"
  else if (mentionedProvinces query).length = 1 then "single_province"
  else if 1 < (mentionedProvinces query).length then "multi_province"
  else if retrieverAllProvincesKeywords.any (fun k => strContains query k) then "all_provinces"
  else "general"

/-! ### `QueryRouter` scope, output format, complexity (`query_router.py`) -/

/-- `QueryRouter._determine_scope`. -/
def determineScope (query : String) : String :=
  if (["所有", "全部", "全国", "31省"] : List String).any (fun k => strContains query k) then
    "comprehensive"
  else if (["部分", "某些", "几个"] : List String).any (fun k => strContains query k) then
    "partial"
  else "specific"

/-- `QueryRouter._determine_output_format`. -/
def determineOutputFormat (query : String) : String :=
  if (["列出", "列举"] : List String).any (fun k => strContains query k) then "province_list"
  else if (["详细", "具体", "深入"] : List String).any (fun k => strContains query k) then
    "detailed"
  else if (["对比", "比较"] : List String).any (fun k => strContains query k) then "comparison"
  else if (["统计", "汇总"] : List String).any (fun k => strContains query k) then "statistics"
  else "province_list"

/-- `QueryRouter._assess_complexity`. -/
def assessComplexity (query : String) : String :=
  let i0 : ℕ := 0
  let i1 := if (["所有省份", "31省", "全国"] : List String).any (fun k => strContains query k)
    then i0 + 2 else i0
  let i2 := if (["对比", "分析", "统计"] : List String).any (fun k => strContains query k)
    then i1 + 1 else i1
  let i3 := if (["详细", "深入", "全面"] : List String).any (fun k => strContains query k)
    then i2 + 1 else i2
  let i4 := if 3 < (mentionedProvinces query).length then i3 + 1 else i3
  if 3 ≤ i4 then "high" else if 1 ≤ i4 then "medium" else "low"

/-! ### `QueryRouter.create_query_plan` (`query_router.py`) -/

/-- The result dict of `QueryRouter.analyze_query`. -/
structure QueryAnalysis where
  original_query : String
  intent : RouterIntent
  scope : String
  output_format : String
  complexity : String
deriving DecidableEq, Repr

/-- `QueryRouter.analyze_query`. -/
def analyzeQuery (query : String) : QueryAnalysis :=
  { original_query := query, intent := identifyIntent query, scope := determineScope query,
    output_format := determineOutputFormat query, complexity := assessComplexity query }

/-- One batch dict; keys missing in the source dicts are modelled by the
empty list / empty string. -/
structure BatchDict where
  type : String
  region : String
  provinces : List String
  query : String
deriving DecidableEq, Repr

structure QueryPlan where
  query_type : String
  batch_strategy : String
  batches : List BatchDict
  expected_provinces : List String
  output_format : String
deriving DecidableEq, Repr

/-- Python `for i in range(0, len(l), bs): l[i:i+bs]`: `range(0, n, bs)`
has `⌈n / bs⌉` indices (for `bs > 0`) and index `i` yields the slice
`l[i*bs : i*bs + bs]`. -/
def chunksOf (bs : ℕ) (l : List String) : List (List String) :=
  (List.range ((l.length + bs - 1) / bs)).map (fun i => (l.drop (i * bs)).take bs)

/-- `self.province_groups["economic_zones"]`, in dict order. -/
def economicZones : List (String × List String) :=
  [("东部地区", ["北京", "天津", "河北", "上海", "江苏", "浙江", "福建", "山东", "广东", "海南"]),
   ("中部地区", ["山西", "安徽", "江西", "河南", "湖北", "湖南"]),
   ("西部地区", ["内蒙古", "广西", "重庆", "四川", "贵州", "云南", "西藏", "陕西", "甘肃",
                "青海", "宁夏", "新疆"]),
   ("东北地区", ["辽宁", "吉林", "黑龙江"])]

/-- `QueryRouter._create_province_group_batches`. -/
def createProvinceGroupBatches (_query : String) : List BatchDict :=
  economicZones.map (fun rp =>
    { type := "province_group", region := rp.1, provinces := rp.2,
      query := "请列出" ++ rp.1 ++ "各省份的主要工作目标：" ++ String.intercalate ", " rp.2 })

/-- `QueryRouter._create_province_chunk_batches` (with the configured
`batch_size` as an explicit parameter). -/
def createProvinceChunkBatches (batchSize : ℕ) (_query : String) (provinces : List String) :
    List BatchDict :=
  (chunksOf batchSize provinces).map (fun bp =>
    { type := "province_chunk", region := "", provinces := bp,
      query := "请列出以下省份的主要工作目标：" ++ String.intercalate ", " bp })

/-- `QueryRouter.create_query_plan`. -/
def createQueryPlan (batchSize : ℕ) (queryAnalysis : QueryAnalysis) : QueryPlan :=
  let intent := queryAnalysis.intent
  if intent.type = "all_provinces" ∧ queryAnalysis.complexity = "high" then
    { query_type := intent.type, batch_strategy := "province_groups",
      batches := createProvinceGroupBatches queryAnalysis.original_query,
      expected_provinces := intent.provinces, output_format := queryAnalysis.output_format }
  else if intent.type = "all_provinces" then
    { query_type := intent.type, batch_strategy := "single_batch",
      batches := [{ type := "all_provinces", region := "", provinces := [],
                    query := queryAnalysis.original_query }],
      expected_provinces := intent.provinces, output_format := queryAnalysis.output_format }
  else if 5 < intent.provinces.length then
    { query_type := intent.type, batch_strategy := "province_chunks",
      batches := createProvinceChunkBatches batchSize queryAnalysis.original_query
        intent.provinces,
      expected_provinces := intent.provinces, output_format := queryAnalysis.output_format }
  else
    { query_type := intent.type, batch_strategy := "single_query",
      batches := [{ type := "direct", region := "", provinces := [],
                    query := queryAnalysis.original_query }],
      expected_provinces := intent.provinces, output_format := queryAnalysis.output_format }

/-! ### Data model of `data_processor.DocumentChunk` and
`retriever.RetrievalResult` -/

structure DocumentChunk where
  id : String
  province : String
  content : String
  chunk_type : String
  metadata : List (String × String)
  char_count : ℕ
  source : String
  start_pos : ℕ
  end_pos : ℕ
  chunk_id : ℕ
deriving DecidableEq, Repr

structure RetrievalResult where
  chunks : List DocumentChunk
  provinces : Finset String
  total_chars : ℕ
  query_type : String
  retrieval_strategy : String

/-- The two `RetrievalResult` invariants claimed by the spec:
`total_chars` sums the chunks' `char_count`s and `provinces` is the set of
distinct chunk entity labels. -/
def ResultInvariant (r : RetrievalResult) : Prop :=
  r.total_chars = (r.chunks.map (fun c => c.char_count)).sum ∧
    r.provinces = (r.chunks.map (fun c => c.province)).toFinset

/-! ### `VectorStore.search` (`vector_store.py`) -/

/-- The vector store: its chunk list plus the external FAISS index,
abstracted as a ranking function from (query, search_k) to (score, index)
pairs.  Python passes `None` for an absent filter; `None` and `""` are
both falsy, so an absent filter is modelled as `""`. -/
structure VectorStore where
  chunks : List DocumentChunk
  ranked : String → ℕ → List (ℚ × ℕ)

/-- `VectorStore.search`: looks up each ranked index, applies the
truthiness-guarded province / chunk-type filters, converts the L2 distance
to `1 / (1 + score)`, and stops after `top_k` results. -/
def VectorStore.search (vs : VectorStore) (query : String) (topK : ℕ)
    (provinceFilter : String) (chunkTypeFilter : String) : List (DocumentChunk × ℚ) :=
  let searchK := min (max (topK * 4) 200) vs.chunks.length
  let results : List (DocumentChunk × ℚ) := (vs.ranked query searchK).filterMap (fun si =>
    match vs.chunks.get? si.2 with
    | none => none
    | some chunk =>
        if (provinceFilter ≠ "" ∧ chunk.province ≠ provinceFilter) ∨
            (chunkTypeFilter ≠ "" ∧ chunk.chunk_type ≠ chunkTypeFilter) then none
        else some (chunk, 1 / (1 + si.1)))
  results.take topK

/-! ### Retrieval strategies (`retriever.py`) -/

/-- The chunk-and-province accumulation
`for chunk, score in province_chunks[:top_k]: all_chunks.append(chunk);
provinces_found.add(province)` shared by the per-province loops. -/
def accumulateProvince (acc : List DocumentChunk × Finset String)
    (province : String) (kept : List (DocumentChunk × ℚ)) :
    List DocumentChunk × Finset String :=
  kept.foldl (fun a cs => (a.1 ++ [cs.1], insert province a.2)) acc

/-- `RAGRetriever.retrieve_for_all_provinces`. -/
def retrieveForAllProvinces (vs : VectorStore) (query : String) (topKPerProvince : ℕ) :
    RetrievalResult :=
  let acc := PROVINCES.foldl (fun acc province =>
    accumulateProvince acc province
      ((vs.search query (topKPerProvince * 4) province "").take topKPerProvince)) ([], ∅)
  { chunks := acc.1, provinces := acc.2,
    total_chars := (acc.1.map (fun c => c.char_count)).sum,
    query_type := "all_provinces", retrieval_strategy := "province_based" }

/-- `RAGRetriever.retrieve_for_specific_provinces` (unknown provinces are
skipped with a warning). -/
def retrieveForSpecificProvinces (vs : VectorStore) (query : String)
    (provinces : List String) (topKPerProvince : ℕ) : RetrievalResult :=
  let acc := provinces.foldl (fun acc province =>
    if province ∉ PROVINCES then acc
    else accumulateProvince acc province
      ((vs.search query (topKPerProvince * 3) province "").take topKPerProvince)) ([], ∅)
  { chunks := acc.1, provinces := acc.2,
    total_chars := (acc.1.map (fun c => c.char_count)).sum,
    query_type := "specific_provinces", retrieval_strategy := "targeted" }

/-- `RAGRetriever.retrieve_for_comparison`: per-province loop when a
(non-empty, Python-truthy) province list is given, global search otherwise. -/
def retrieveForComparison (vs : VectorStore) (query : String) (provinces : List String)
    (topK : ℕ) (topKPerProvince : ℕ) : RetrievalResult :=
  if provinces ≠ [] then
    let acc := provinces.foldl (fun acc province =>
      accumulateProvince acc province
        ((vs.search query (topKPerProvince * 3) province "").take topKPerProvince)) ([], ∅)
    { chunks := acc.1, provinces := acc.2,
      total_chars := (acc.1.map (fun c => c.char_count)).sum,
      query_type := "comparison", retrieval_strategy := "comparative" }
  else
    let allChunks := (vs.search query topK "" "").map (fun cs => cs.1)
    { chunks := allChunks, provinces := (allChunks.map (fun c => c.province)).toFinset,
      total_chars := (allChunks.map (fun c => c.char_count)).sum,
      query_type := "comparison", retrieval_strategy := "comparative" }

/-- `RAGRetriever.retrieve_by_topic`. -/
def retrieveByTopic (vs : VectorStore) (query : String) (chunkType : String) (topK : ℕ) :
    RetrievalResult :=
  let allChunks := (vs.search query topK "" chunkType).map (fun cs => cs.1)
  { chunks := allChunks, provinces := (allChunks.map (fun c => c.province)).toFinset,
    total_chars := (allChunks.map (fun c => c.char_count)).sum,
    query_type := "topic", retrieval_strategy := "topic_based" }

/-! ### Adjacent-chunk expansion (`retriever.py`, general strategy) -/

/-- Stable insertion step for an ascending sort by a natural-number key
(ties keep the earlier element first, as Python's stable `sort` does). -/
def insertAscBy (key : DocumentChunk → ℕ) (x : DocumentChunk) :
    List DocumentChunk → List DocumentChunk
  | [] => [x]
  | y :: ys => if key y < key x then y :: insertAscBy key x ys else x :: y :: ys

/-- Stable ascending sort by a natural-number key (Python `list.sort(key=...)`). -/
def sortAscBy (key : DocumentChunk → ℕ) (l : List DocumentChunk) : List DocumentChunk :=
  l.foldr (insertAscBy key) []

/-- `RAGRetriever.get_adjacent_chunks`: same-document chunks sorted by
`chunk_id`, a window of `window` on each side of the target position,
target excluded; `[]` when the target is not found. -/
def getAdjacentChunks (vs : VectorStore) (chunk : DocumentChunk) (window : ℕ) :
    List DocumentChunk :=
  let sameDocChunks := sortAscBy (fun c => c.chunk_id)
    (vs.chunks.filter (fun sc => sc.source = chunk.source ∧ sc.province = chunk.province))
  match sameDocChunks.findIdx? (fun sc =>
      sc.content = chunk.content ∧ sc.start_pos = chunk.start_pos) with
  | none => []
  | some targetIndex =>
      let startIdx := targetIndex - window
      let endIdx := min sameDocChunks.length (targetIndex + window + 1)
      ((List.range sameDocChunks.length).filter (fun i =>
        startIdx ≤ i ∧ i < endIdx ∧ i ≠ targetIndex)).filterMap (fun i => sameDocChunks.get? i)

/-- The `(source, start_pos, content[:50])` deduplication key. -/
def chunkKey (c : DocumentChunk) : String × ℕ × String :=
  (c.source, c.start_pos, pyTake c.content 50)

/-- The general branch of `RAGRetriever.smart_retrieve`: global top-60
search, then adjacency expansion deduplicated by `chunkKey`. -/
def retrieveGeneral (vs : VectorStore) (query : String) : RetrievalResult :=
  let primaryChunks := (vs.search query 60 "" "").map (fun cs => cs.1)
  let addIfNew := fun (a : List DocumentChunk × Finset (String × ℕ × String))
      (c : DocumentChunk) =>
    if chunkKey c ∈ a.2 then a else (a.1 ++ [c], insert (chunkKey c) a.2)
  let acc := primaryChunks.foldl (fun a c =>
    (getAdjacentChunks vs c 1).foldl addIfNew (addIfNew a c)) ([], ∅)
  let enhancedChunks := acc.1
  { chunks := enhancedChunks,
    provinces := (enhancedChunks.map (fun c => c.province)).toFinset,
    total_chars := (enhancedChunks.map (fun c => c.char_count)).sum,
    query_type := "general", retrieval_strategy := "semantic_with_adjacent" }

/-! ### `RAGRetriever._truncate_results` (`retriever.py`) -/

/-- Python `len(content.split())`: whitespace-delimited word count. -/
def countWords (s : String) : ℕ :=
  ((s.data.splitOnP Char.isWhitespace).filter (fun w => w ≠ [])).length

/-- The density score `min(char_count/500, 2.0) + word_count/100` of the
improved truncation strategy. -/
def chunkScore (c : DocumentChunk) : ℚ :=
  min ((c.char_count : ℚ) / 500) 2 + (countWords c.content : ℚ) / 100

/-- `chunkScore` multiplied through by the common denominator `500`, so
that score comparisons are kernel-computable `ℕ` comparisons;
`chunkScore_lt_iff` (below) proves the orderings identical.  The floats
involved are small dyadic-denominator-free sums of `n/500` and `n/100`
compared for order, where Python's double rounding cannot cross the
comparison: the exact rational order is the implemented order. -/
def chunkScoreScaled (c : DocumentChunk) : ℕ :=
  min c.char_count 1000 + 5 * countWords c.content

/-- Stable insertion step for the descending sort
`sorted(chunks, key=chunk_score, reverse=True)` (ties keep original order). -/
def insertDescBy {α : Type} (key : α → ℕ) (x : α) : List α → List α
  | [] => [x]
  | y :: ys => if key x < key y then y :: insertDescBy key x ys else x :: y :: ys

/-- Stable descending sort by a natural-number key
(`sorted(..., key=..., reverse=True)`). -/
def sortDescBy {α : Type} (key : α → ℕ) (l : List α) : List α :=
  l.foldr (insertDescBy key) []

/-- The truncated partial chunk built when the remaining budget exceeds
200 characters: content sliced to `remaining - 50` characters plus an
ellipsis marker, with recomputed `char_count` and `end_pos`. -/
def mkTruncatedChunk (c : DocumentChunk) (remaining : ℕ) : DocumentChunk :=
  let truncatedContent := pyTake c.content (remaining - 50) ++ "..."
  { id := c.id ++ "_truncated", province := c.province, content := truncatedContent,
    chunk_type := c.chunk_type, metadata := c.metadata,
    char_count := truncatedContent.length, source := c.source, start_pos := c.start_pos,
    end_pos := c.start_pos + truncatedContent.length, chunk_id := c.chunk_id }

/-- The greedy budget loop of the non-`all_provinces` truncation branch:
accept whole chunks while they fit; at the first chunk that does not fit,
emit a sliced prefix when more than 200 characters of budget remain, then
stop. -/
def greedyTruncate (maxChars : ℕ) : ℕ → List DocumentChunk → List DocumentChunk
  | _, [] => []
  | currentChars, c :: rest =>
    if currentChars + c.char_count ≤ maxChars then
      c :: greedyTruncate maxChars (currentChars + c.char_count) rest
    else
      let remainingChars := maxChars - currentChars
      if 200 < remainingChars then [mkTruncatedChunk c remainingChars] else []

/-- One step of the `all_provinces` truncation loop: the accumulator is
the accepted chunk list plus the `province_chars` tally (absent keys read
as 0); a chunk is accepted iff its province's tally stays within the
per-province budget. -/
def allProvStep (charsPerProvince : ℕ) (acc : List DocumentChunk × (String → ℕ))
    (c : DocumentChunk) : List DocumentChunk × (String → ℕ) :=
  if acc.2 c.province + c.char_count ≤ charsPerProvince then
    (acc.1 ++ [c], Function.update acc.2 c.province (acc.2 c.province + c.char_count))
  else acc

/-- The `all_provinces` truncation branch. -/
def allProvincesTruncate (charsPerProvince : ℕ) (chunks : List DocumentChunk) :
    List DocumentChunk :=
  (chunks.foldl (allProvStep charsPerProvince) ([], fun _ => 0)).1

/-- `RAGRetriever._truncate_results`. -/
def truncateResults (result : RetrievalResult) (maxChars : ℕ) : RetrievalResult :=
  if result.total_chars ≤ maxChars then result
  else
    let truncatedChunks :=
      if result.query_type = "all_provinces" then
        allProvincesTruncate (maxChars / result.provinces.card) result.chunks
      else
        greedyTruncate maxChars 0 (sortDescBy chunkScoreScaled result.chunks)
    { chunks := truncatedChunks,
      provinces := (truncatedChunks.map (fun c => c.province)).toFinset,
      total_chars := (truncatedChunks.map (fun c => c.char_count)).sum,
      query_type := result.query_type,
      retrieval_strategy := result.retrieval_strategy ++ "_truncated" }

/-! ### `RAGRetriever.smart_retrieve` (`retriever.py`), with the
`RETRIEVAL_CONFIG` values of `config.example.py` and no caller-supplied
`max_context_chars` -/

def smartRetrieve (vs : VectorStore) (query : String) : RetrievalResult :=
  let intent := identifyQueryIntent query
  let pair : RetrievalResult × ℕ :=
    if intent.type = "all_provinces" then (retrieveForAllProvinces vs query 8, 80000)
    else if intent.type = "single_province" then
      (retrieveForSpecificProvinces vs query intent.provinces 30, 40000)
    else if intent.type = "multi_province" then
      (retrieveForSpecificProvinces vs query intent.provinces 15, 60000)
    else if intent.type = "comparison" then
      (retrieveForComparison vs query intent.provinces 150 25, 100000)
    else if intent.type = "statistics" then (retrieveByTopic vs query "target" 120, 80000)
    else (retrieveGeneral vs query, 100000)
  if pair.2 < pair.1.total_chars then truncateResults pair.1 pair.2 else pair.1

/-! ### `ResultAggregator` static tables (`result_aggregator.py`) -/

/-- `self.province_aliases`, in dict order. -/
def provinceAliases : List (String × String) :=
  [("京", "北京"), ("津", "天津"), ("冀", "河北"), ("晋", "山西"), ("蒙", "内蒙古"),
   ("辽", "辽宁"), ("吉", "吉林"), ("黑", "黑龙江"), ("沪", "上海"), ("苏", "江苏"),
   ("浙", "浙江"), ("皖", "安徽"), ("闽", "福建"), ("赣", "江西"), ("鲁", "山东"),
   ("豫", "河南"), ("鄂", "湖北"), ("湘", "湖南"), ("粤", "广东"), ("桂", "广西"),
   ("琼", "海南"), ("渝", "重庆"), ("川", "四川"), ("蜀", "四川"), ("黔", "贵州"),
   ("贵", "贵州"), ("滇", "云南"), ("云", "云南"), ("藏", "西藏"), ("陕", "陕西"),
   ("秦", "陕西"), ("甘", "甘肃"), ("陇", "甘肃"), ("青", "青海"), ("宁", "宁夏"),
   ("新", "新疆")]

/-- `self.target_keywords`. -/
def targetKeywords : List String :=
  ["目标", "任务", "重点", "计划", "规划", "工程", "项目", "举措",
   "推进", "发展", "建设", "完善", "提升", "增长", "实现", "达到"]

/-! ### `ResultAggregator._extract_targets_from_line` -/

/-- `re.sub(f'^{province}[：:]?', '', line)` for one province: strip the
province name at the start together with one optional colon. -/
def stripOneProvinceAtStart (line : String) (province : String) : String :=
  if province.data.isPrefixOf line.data then
    match line.data.drop province.data.length with
    | c :: cs => if c = '：' ∨ c = ':' then ⟨cs⟩ else ⟨c :: cs⟩
    | [] => ⟨([] : List Char)⟩
  else line

/-- The sequential province-name stripping loop at the top of
`_extract_targets_from_line`. -/
def stripProvinceNames (line : String) : String :=
  PROVINCES.foldl stripOneProvinceAtStart line

/-- `separators = ['、', '，', ',', '；', ';', '。', '|']`, in priority order. -/
def targetSeparators : List Char :=
  ['、', '，', ',', '；', ';', '。', '|']

/-- `re.sub(r'^[0-9]+\.?\s*', '', target)`: strip a leading numeric list
marker (digits, optional dot, trailing whitespace); no-op when the string
does not start with a digit. -/
def stripNumericMarker (s : String) : String :=
  let rest := s.data.dropWhile (fun c => c.isDigit)
  if rest.length = s.data.length then s
  else
    match rest with
    | '.' :: cs => ⟨cs.dropWhile Char.isWhitespace⟩
    | _ => ⟨rest.dropWhile Char.isWhitespace⟩

/-- The split phase of `_extract_targets_from_line`: split `clean_line` on
the first priority separator it contains (or keep the whole line), strip
each part, keep parts longer than 3 characters. -/
def splitLineParts (line : String) : List String :=
  let cleanLine := stripProvinceNames line
  match targetSeparators.find? (fun sep => cleanLine.data.contains sep) with
  | some sep =>
      ((cleanLine.data.splitOn sep).map (fun cs => pyStrip ⟨cs⟩)).filter
        (fun part => part ≠ "" ∧ 3 < part.length)
  | none =>
      let c := pyStrip cleanLine
      if c ≠ "" ∧ 3 < c.length then [c] else []

/-- The cleaning phase of `_extract_targets_from_line`: strip the numeric
marker and surrounding whitespace, keep the part only when it contains a
target keyword or is longer than 10 characters. -/
def cleanTargetPart (target : String) : Option String :=
  let t := pyStrip (stripNumericMarker target)
  if targetKeywords.any (fun kw => strContains t kw) ∨ 10 < t.length then some t else none

/-- `ResultAggregator._extract_targets_from_line`. -/
def extractTargetsFromLine (line : String) : List String :=
  (splitLineParts line).filterMap cleanTargetPart

/-! ### `ResultAggregator._extract_province_from_line` -/

/-- The leftmost match group of `re.search(r'([^：:]+)(?:省|市|自治区)?[：:]', line)`:
the maximal run of non-colon characters immediately before the first colon
that has such a run. -/
def colonGroup : List Char → List Char → Option String
  | [], _ => none
  | c :: rest, acc =>
      if c = '：' ∨ c = ':' then
        if acc = [] then colonGroup rest [] else some ⟨acc.reverse⟩
      else colonGroup rest (c :: acc)

/-- `ResultAggregator._extract_province_from_line`: canonical name
anywhere in the line, else a single-character alias anywhere in the line,
else the text before a colon validated by fuzzy containment against the
canonical list. -/
def extractProvinceFromLine (line : String) : Option String :=
  match PROVINCES.find? (fun p => strContains line p) with
  | some p => some p
  | none =>
    match provinceAliases.find? (fun al => strContains line al.1) with
    | some al => some al.2
    | none =>
      match colonGroup line.data [] with
      | none => none
      | some potential =>
          let potentialProvince := pyStrip potential
          PROVINCES.find? (fun p =>
            strContains potentialProvince p ∨ strContains p potentialProvince)

/-! ### `ResultAggregator._parse_province_content` -/

/-- Append `ts` to the entry of `p` in an insertion-ordered association
list (`province_info[p].extend(ts)`). -/
def extendEntry (info : List (String × List String)) (p : String) (ts : List String) :
    List (String × List String) :=
  info.map (fun kv => if kv.1 = p then (kv.1, kv.2 ++ ts) else kv)

/-- `ResultAggregator._parse_province_content`: line-oriented state
machine; a recognized province line switches the current province (adding
an empty entry on first sight), other lines accumulate under the current
province. -/
def parseProvinceContent (content : String) : List (String × List String) :=
  let step := fun (st : List (String × List String) × Option String) (rawLine : String) =>
    let line := pyStrip rawLine
    if line = "" then st
    else
      match extractProvinceFromLine line with
      | some p =>
          let info := if (st.1.lookup p).isSome then st.1 else st.1 ++ [(p, [])]
          let targetsInLine := extractTargetsFromLine line
          (if targetsInLine ≠ [] then extendEntry info p targetsInLine else info, some p)
      | none =>
          match st.2 with
          | some p =>
              let targetsInLine := extractTargetsFromLine line
              (if targetsInLine ≠ [] then extendEntry st.1 p targetsInLine else st.1, st.2)
          | none => st
  (((content.data.splitOn '\n').map (fun cs => (⟨cs⟩ : String))).foldl step ([], none)).1

/-! ### `ResultAggregator._normalize_province_name` -/

/-- `re.sub(r'(省|市|自治区|特别行政区)$', '', province)`: at most one of
the four suffixes can match, anchored at the end. -/
def stripProvinceSuffix (province : String) : String :=
  if "省".data.isSuffixOf province.data then ⟨province.data.take (province.data.length - 1)⟩
  else if "市".data.isSuffixOf province.data then ⟨province.data.take (province.data.length - 1)⟩
  else if "自治区".data.isSuffixOf province.data then
    ⟨province.data.take (province.data.length - 3)⟩
  else if "特别行政区".data.isSuffixOf province.data then
    ⟨province.data.take (province.data.length - 5)⟩
  else province

/-- `ResultAggregator._normalize_province_name` (`None` for falsy input). -/
def normalizeProvinceName (province : String) : Option String :=
  if province = "" then none
  else
    let p := stripProvinceSuffix province
    match provinceAliases.lookup p with
    | some full => some full
    | none =>
        match PROVINCES.find? (fun std => p = std ∨ strContains std p) with
        | some std => some std
        | none => some p

/-! ### Rendering (`result_aggregator.py`, `_format_as_*`) -/

/-- Lexicographic code-point comparison on character lists: exactly
Python's `<` on `str` (and Lean's `String.lt`), in kernel-computable form. -/
def charListLt : List Char → List Char → Bool
  | [], [] => false
  | [], _ :: _ => true
  | _ :: _, [] => false
  | a :: as, b :: bs =>
      if a.toNat < b.toNat then true
      else if b.toNat < a.toNat then false
      else charListLt as bs

/-- Python `a < b` on strings. -/
def strLt (a b : String) : Bool :=
  charListLt a.data b.data

/-- Stable ascending insertion for Python `sorted` over strings
(lexicographic by code point, as both languages compare). -/
def insertStrAsc (x : String) : List String → List String
  | [] => [x]
  | y :: ys => if strLt y x then y :: insertStrAsc x ys else x :: y :: ys

/-- Python `sorted(strings)`. -/
def sortStrings (l : List String) : List String :=
  l.foldr insertStrAsc []

/-- `ResultAggregator._format_as_province_list`. -/
def formatAsProvinceList (provinceContents : List (String × List String)) : String :=
  let lines := (sortStrings (provinceContents.map (fun kv => kv.1))).map (fun province =>
    match provinceContents.lookup province with
    | some targets =>
        if targets ≠ [] then
          let targetsStr := String.intercalate "、" (targets.take 5) ++
            (if 5 < targets.length then "等" ++ toString targets.length ++ "项" else "")
          province ++ "：" ++ targetsStr
        else province ++ "：信息不足"
    | none => province ++ "：信息不足")
  String.intercalate "\n" lines

/-- `ResultAggregator._format_as_detailed_report`. -/
def formatAsDetailedReport (provinceContents : List (String × List String)) : String :=
  let sections := ["# 各省政府工作报告主要目标汇总\n"] ++
    (sortStrings (provinceContents.map (fun kv => kv.1))).flatMap (fun province =>
      let targets := (provinceContents.lookup province).getD []
      ["## " ++ province] ++
        (if targets ≠ [] then
          (List.range targets.length).map (fun i =>
            toString (i + 1) ++ ". " ++ (targets.get? i).getD "")
        else ["暂无具体目标信息"]) ++ [""])
  String.intercalate "\n" sections

/-- `ResultAggregator._format_as_comparison_table`. -/
def formatAsComparisonTable (provinceContents : List (String × List String)) : String :=
  let header := ["| 省份 | 主要工作目标 | 目标数量 |", "|------|-------------|---------|"]
  let rows := (sortStrings (provinceContents.map (fun kv => kv.1))).map (fun province =>
    let targets := (provinceContents.lookup province).getD []
    let mainTargets :=
      if targets ≠ [] then
        String.intercalate "、" (targets.take 3) ++ (if 3 < targets.length then "..." else "")
      else "信息不足"
    let targetCount := targets.length
    "| " ++ province ++ " | " ++ mainTargets ++ " | " ++ toString targetCount ++ " |")
  String.intercalate "\n" (header ++ rows)

/-- One tallying step of the target-type frequency table: `target_types[kw] += 1`
with insertion-ordered first occurrence. -/
def bumpCount (counts : List (String × ℕ)) (kw : String) : List (String × ℕ) :=
  if (counts.lookup kw).isSome then
    counts.map (fun e => if e.1 = kw then (e.1, e.2 + 1) else e)
  else counts ++ [(kw, 1)]

/-- The `target_types` tally of `_format_as_statistics`. -/
def tallyTargetTypes (provinceContents : List (String × List String)) : List (String × ℕ) :=
  provinceContents.foldl (fun acc kv =>
    kv.2.foldl (fun acc2 target =>
      targetKeywords.foldl (fun acc3 kw =>
        if strContains target kw then bumpCount acc3 kw else acc3) acc2) acc) []

/-- One decimal digit of the per-province average
(`f-string :.1f` digit rendering is abstracted to truncation towards zero;
no claim depends on the digits, only on the division being attempted). -/
def avgText (totalTargets totalProvinces : ℕ) : String :=
  toString (totalTargets / totalProvinces) ++ "." ++
    toString (10 * totalTargets / totalProvinces % 10)

/-- `ResultAggregator._format_as_statistics`: `none` models the
`ZeroDivisionError` raised by `total_targets/total_provinces` when the
entity map is empty; otherwise the rendered summary. -/
def formatAsStatistics (provinceContents : List (String × List String)) : Option String :=
  let totalProvinces := provinceContents.length
  let totalTargets := (provinceContents.map (fun kv => kv.2.length)).sum
  let provincesWithTargets := (provinceContents.filter (fun kv => kv.2 ≠ [])).length
  if totalProvinces = 0 then none
  else
    let targetTypes := tallyTargetTypes provinceContents
    let baseLines :=
      ["# 政府工作报告统计分析", "", "## 基本统计",
       "- 总省份数：" ++ toString totalProvinces,
       "- 有目标信息的省份：" ++ toString provincesWithTargets,
       "- 总目标数量：" ++ toString totalTargets,
       "- 平均每省目标数：" ++ avgText totalTargets totalProvinces, ""]
    let typeLines :=
      if targetTypes ≠ [] then
        ["## 目标类型分布"] ++
          ((sortDescBy (fun e => e.2) targetTypes).take 10).map (fun e =>
            "- " ++ e.1 ++ "：" ++ toString e.2 ++ " 次")
      else []
    some (String.intercalate "\n" (baseLines ++ typeLines))

/-! ### `ResultAggregator.aggregate_batch_results` -/

/-- One input batch-result dict (the keys the aggregator reads). -/
structure BatchResultIn where
  success : Bool
  content : String
  provinces : List String
deriving DecidableEq, Repr

/-- The `processing_stats` dict; keys absent in the no-results branch are
modelled as `none`. -/
structure ProcessingStats where
  success_rate : ℚ
  total_batches : ℕ
  successful_batches : Option ℕ
  provinces_found : Option ℕ
  total_targets_extracted : Option ℕ

structure AggregatedResult where
  content : String
  provinces : List String
  total_targets : ℕ
  format_type : String
  processing_stats : ProcessingStats

/-- The terminal aggregate returned when no batch succeeded. -/
def noResultAggregate (batchResults : List BatchResultIn) (outputFormat : String) :
    AggregatedResult :=
  { content := "抱歉，没有获取到有效的查询结果。", provinces := [], total_targets := 0,
    format_type := outputFormat,
    processing_stats := { success_rate := 0, total_batches := batchResults.length,
                          successful_batches := none, provinces_found := none,
                          total_targets_extracted := none } }

/-- The parse-and-normalize accumulation over the successful batches: the
`all_provinces` set (a Python `set`, modelled as a duplicate-free list so
that its sorted rendering and cardinality stay computable) and the
insertion-ordered `province_contents` map. -/
def collectProvinceContents (successfulResults : List BatchResultIn) :
    List String × List (String × List String) :=
  successfulResults.foldl (fun acc r =>
    (parseProvinceContent r.content).foldl (fun acc2 pt =>
      match normalizeProvinceName pt.1 with
      | none => acc2
      | some np =>
          if np = "" then acc2
          else
            ((if np ∈ acc2.1 then acc2.1 else acc2.1 ++ [np]),
             if (acc2.2.lookup np).isSome then extendEntry acc2.2 np pt.2
             else acc2.2 ++ [(np, pt.2)])) acc) ([], [])

/-- Dispatch on `output_format` (unknown formats fall back to the
province list). -/
def renderContent (outputFormat : String) (provinceContents : List (String × List String)) :
    Option String :=
  if outputFormat = "province_list" then some (formatAsProvinceList provinceContents)
  else if outputFormat = "detailed" then some (formatAsDetailedReport provinceContents)
  else if outputFormat = "comparison" then some (formatAsComparisonTable provinceContents)
  else if outputFormat = "statistics" then formatAsStatistics provinceContents
  else some (formatAsProvinceList provinceContents)

/-- `ResultAggregator.aggregate_batch_results`; `none` models an escaping
`ZeroDivisionError` from the statistics renderer. -/
def aggregateBatchResults (batchResults : List BatchResultIn) (outputFormat : String) :
    Option AggregatedResult :=
  let successfulResults := batchResults.filter (fun r => r.success)
  if successfulResults = [] then some (noResultAggregate batchResults outputFormat)
  else
    let collected := collectProvinceContents successfulResults
    let allProvinces := collected.1
    let provinceContents := collected.2.map (fun kv => (kv.1, deduplicateTargets kv.2))
    match renderContent outputFormat provinceContents with
    | none => none
    | some finalContent =>
        let totalTargets := (provinceContents.map (fun kv => kv.2.length)).sum
        some { content := finalContent,
               provinces := sortStrings allProvinces,
               total_targets := totalTargets,
               format_type := outputFormat,
               processing_stats :=
                 { success_rate := (successfulResults.length : ℚ) / (batchResults.length : ℚ),
                   total_batches := batchResults.length,
                   successful_batches := some successfulResults.length,
                   provinces_found := some allProvinces.length,
                   total_targets_extracted := some totalTargets } }

/-- Total characters of a chunk list (`sum(chunk.char_count ...)`). -/
def sumChars (l : List DocumentChunk) : ℕ :=
  (l.map (fun c => c.char_count)).sum

/-- The two `RetrievalResult` invariant components as a single predicate
over the chunk/province accumulator used by the per-province loops. -/
def AccInvariant (acc : List DocumentChunk × Finset String) : Prop :=
  acc.2 = (acc.1.map (fun c => c.province)).toFinset

/-- A concrete one-chunk result for the truncation-underflow analysis:
one 300-character chunk against a budget of 100. -/
def underflowChunk : DocumentChunk :=
  { id := "c1", province := "北京", content := ⟨List.replicate 300 'x'⟩,
    chunk_type := "content", metadata := [], char_count := 300, source := "doc",
    start_pos := 0, end_pos := 300, chunk_id := 0 }

def underflowResult : RetrievalResult :=
  { chunks := [underflowChunk], provinces := {"北京"}, total_chars := 300,
    query_type := "general", retrieval_strategy := "semantic_with_adjacent" }


/-! ## Theorems -/

/-! ### Bridge lemmas for the scaled comparisons -/

/-- The integer form of the similarity threshold agrees with the rational
comparison against `0.8` that the source performs. -/
theorem similarityAbove_iff (t e : String) :
    similarityAbove t e = true ↔ (0.8 : ℚ) < calculateSimilarity t e := by
  unfold similarityAbove calculateSimilarity
  by_cases h : t.data = [] ∨ e.data = []
  · rw [if_pos h, if_pos h]
    constructor
    · intro hc
      exact absurd hc (by simp)
    · intro hc
      exact absurd hc (by norm_num)
  · have ht : 0 < t.length := by
      have h1 : t.data ≠ [] := fun hc => h (Or.inl hc)
      have h2 : t.data.length ≠ 0 := fun hc => h1 (List.eq_nil_of_length_eq_zero hc)
      exact Nat.pos_of_ne_zero h2
    have hmax : 0 < max t.length e.length := lt_max_of_lt_left ht
    have hmaxq : (0 : ℚ) < (max t.length e.length : ℚ) := by exact_mod_cast hmax
    rw [if_neg h, if_neg h, if_pos hmax, decide_eq_true_eq,
      show (0.8 : ℚ) = 4 / 5 by norm_num, div_lt_div_iff₀ (by norm_num) hmaxq,
      mul_comm ((commonCharCount t e : ℕ) : ℚ) 5]
    exact_mod_cast Iff.rfl

/-- The scaled integer density score orders chunks exactly as the rational
`chunkScore` does (both are the source's float score scaled by 500). -/
theorem chunkScoreScaled_lt_iff (a b : DocumentChunk) :
    chunkScoreScaled a < chunkScoreScaled b ↔ chunkScore a < chunkScore b := by
  have key : ∀ c : DocumentChunk, chunkScore c = (chunkScoreScaled c : ℚ) / 500 := by
    intro c
    unfold chunkScore chunkScoreScaled
    push_cast
    rw [add_div, show (2 : ℚ) = 1000 / 500 by norm_num,
      min_div_div_right (by norm_num : (0 : ℚ) ≤ 500)]
    congr 1
    ring
  rw [key, key, div_lt_div_iff_of_pos_right (by norm_num : (0 : ℚ) < 500)]
  exact_mod_cast Iff.rfl

/-! ### `chunksOf` structure lemmas -/

theorem chunksOf_nil (bs : ℕ) : chunksOf bs ([] : List String) = [] := by
  unfold chunksOf
  match bs with
  | 0 => rfl
  | n + 1 =>
      simp only [List.length_nil, Nat.zero_add, Nat.add_sub_cancel]
      rw [Nat.div_eq_of_lt (Nat.lt_succ_self n)]
      rfl

theorem chunksOf_cons (bs : ℕ) (hbs : 0 < bs) (l : List String) (hl : l ≠ []) :
    chunksOf bs l = l.take bs :: chunksOf bs (l.drop bs) := by
  have hL : 1 ≤ l.length := by
    cases l with
    | nil => exact absurd rfl hl
    | cons a as => simp
  have hcount : (l.length + bs - 1) / bs = (l.length - 1) / bs + 1 := by
    have : l.length + bs - 1 = (l.length - 1) + bs := by omega
    rw [this, Nat.add_div_right _ hbs]
  have hcount2 : ((l.drop bs).length + bs - 1) / bs = (l.length - 1) / bs := by
    rw [List.length_drop]
    rcases Nat.le_total bs l.length with hble | hble
    · have : l.length - bs + bs - 1 = l.length - 1 := by omega
      rw [this]
    · have h1 : l.length - bs = 0 := by omega
      rw [h1]
      rw [Nat.div_eq_of_lt (by omega), Nat.div_eq_of_lt (by omega)]
  unfold chunksOf
  rw [hcount, hcount2, List.range_succ_eq_map, List.map_cons, List.map_map]
  congr 1
  · simp
  · apply List.map_congr_left
    intro i _
    simp only [Function.comp_apply]
    rw [Nat.succ_mul, List.drop_drop, Nat.add_comm (i * bs) bs]

theorem chunksOf_flatten (bs : ℕ) (hbs : 0 < bs) (l : List String) :
    (chunksOf bs l).flatten = l := by
  by_cases hl : l = []
  · rw [hl, chunksOf_nil]
    rfl
  · rw [chunksOf_cons bs hbs l hl, List.flatten_cons,
      chunksOf_flatten bs hbs (l.drop bs), List.take_append_drop]
termination_by l.length
decreasing_by
  have : 0 < l.length := by
    cases l with
    | nil => exact absurd rfl hl
    | cons a as => simp
  simp only [List.length_drop]
  omega

theorem chunksOf_length (bs : ℕ) (l : List String) :
    (chunksOf bs l).length = (l.length + bs - 1) / bs := by
  unfold chunksOf
  rw [List.length_map, List.length_range]

/-! ### C1 — intent classification precedence -/

/-- C1 (counterexample): the claim's precedence fails for the retriever's
classifier `identify_query_intent`.  "北京对比" mentions exactly one known
entity and a comparison keyword, so the claimed precedence classifies it
`single_entity` and says it is never `comparison`; the code returns
`comparison`.  "全国北京对比" contains a comprehensive-scope keyword, so
the claim requires `all_entities`; the code returns `comparison`. -/
theorem intent_precedence_counterexample :
    ((mentionedProvinces "北京对比").length = 1 ∧
      retrieverComparisonKeywords.any (fun k => strContains "北京对比" k) = true ∧
      (identifyQueryIntent "北京对比").type = "comparison") ∧
    (retrieverAllProvincesKeywords.any (fun k => strContains "全国北京对比" k) = true ∧
      (identifyQueryIntent "全国北京对比").type ≠ "all_provinces") := by
  decide

/-- C1 (amended): the router's `_identify_intent` follows the claimed
first-match-wins precedence (comprehensive scope, then exactly one entity,
then several entities, then comparison, then statistics, else general);
the retriever's `identify_query_intent` instead applies the checks
sequentially with later overwrites, so its effective precedence is
reversed: statistics keywords win, then comparison keywords, then
single/multi entity mentions, then comprehensive scope, else general. -/
theorem intent_precedence_amended (query : String) :
    ((routerAllProvincesKeywords.any (fun k => strContains query k) = true →
        (identifyIntent query).type = "all_provinces") ∧
      (routerAllProvincesKeywords.any (fun k => strContains query k) = false →
        (mentionedProvinces query).length = 1 →
        (identifyIntent query).type = "single_province") ∧
      (routerAllProvincesKeywords.any (fun k => strContains query k) = false →
        1 < (mentionedProvinces query).length →
        (identifyIntent query).type = "multi_province") ∧
      (routerAllProvincesKeywords.any (fun k => strContains query k) = false →
        (mentionedProvinces query).length = 0 →
        routerComparisonKeywords.any (fun k => strContains query k) = true →
        (identifyIntent query).type = "comparison") ∧
      (routerAllProvincesKeywords.any (fun k => strContains query k) = false →
        (mentionedProvinces query).length = 0 →
        routerComparisonKeywords.any (fun k => strContains query k) = false →
        routerStatisticsKeywords.any (fun k => strContains query k) = true →
        (identifyIntent query).type = "statistics") ∧
      (routerAllProvincesKeywords.any (fun k => strContains query k) = false →
        (mentionedProvinces query).length = 0 →
        routerComparisonKeywords.any (fun k => strContains query k) = false →
        routerStatisticsKeywords.any (fun k => strContains query k) = false →
        (identifyIntent query).type = "general")) ∧
    (identifyQueryIntent query).type = retrieverTypeSpelledOut query := by
  constructor
  · refine ⟨fun h1 => ?_, fun h1 h2 => ?_, fun h1 h2 => ?_, fun h1 h2 h3 => ?_,
      fun h1 h2 h3 h4 => ?_, fun h1 h2 h3 h4 => ?_⟩
    · simp [identifyIntent, h1]
    · simp [identifyIntent, h1, h2]
    · have hne : (mentionedProvinces query).length ≠ 1 := by omega
      simp [identifyIntent, h1, h2, hne]
    · have hn1 : (mentionedProvinces query).length ≠ 1 := by omega
      have hn2 : ¬(1 < (mentionedProvinces query).length) := by omega
      simp [identifyIntent, h1, h3, hn1, hn2]
    · have hn1 : (mentionedProvinces query).length ≠ 1 := by omega
      have hn2 : ¬(1 < (mentionedProvinces query).length) := by omega
      simp [identifyIntent, h1, h3, h4, hn1, hn2]
    · have hn1 : (mentionedProvinces query).length ≠ 1 := by omega
      have hn2 : ¬(1 < (mentionedProvinces query).length) := by omega
      simp [identifyIntent, h1, h3, h4, hn1, hn2]
  · by_cases h1 : retrieverStatisticsKeywords.any (fun k => strContains query k)
    · simp [identifyQueryIntent, retrieverTypeSpelledOut, h1]
    · by_cases h2 : retrieverComparisonKeywords.any (fun k => strContains query k)
      · simp [identifyQueryIntent, retrieverTypeSpelledOut, h1, h2]
      · by_cases h3 : mentionedProvinces query = []
        · simp [identifyQueryIntent, retrieverTypeSpelledOut, h1, h2, h3]
        · have hn : 0 < (mentionedProvinces query).length := List.length_pos.mpr h3
          by_cases h4 : (mentionedProvinces query).length = 1
          · simp [identifyQueryIntent, retrieverTypeSpelledOut, h1, h2, h3, h4]
          · have h5 : 1 < (mentionedProvinces query).length := by omega
            simp [identifyQueryIntent, retrieverTypeSpelledOut, h1, h2, h3, h4, h5]

/-- C1 (witness): the amended theorem applied at "全国" (router) and at
"全国" (retriever characterization). -/
theorem intent_precedence_amended_witness :
    routerAllProvincesKeywords.any (fun k => strContains "全国" k) = true ∧
    (identifyIntent "全国").type = "all_provinces" ∧
    (identifyQueryIntent "全国").type = retrieverTypeSpelledOut "全国" := by
  refine ⟨by decide, ?_, ?_⟩
  · exact (intent_precedence_amended "全国").1.1 (by decide)
  · exact (intent_precedence_amended "全国").2

/-! ### C2 — batch planning by fixed-size entity chunks -/

/-- C2: for every analysis whose intent is not `all_provinces` and mentions
more than 5 entities, the plan uses the `province_chunks` strategy, has
`⌈n / batch_size⌉` batches, the concatenation of the batches' entity lists
reproduces the mention order, and the batch membership is exactly
`chunksOf batch_size provinces` — a function of the intent's entity list
and `batch_size` alone. -/
theorem create_query_plan_chunks (bs : ℕ) (a : QueryAnalysis) (hbs : 0 < bs)
    (hty : a.intent.type ≠ "all_provinces") (hn : 5 < a.intent.provinces.length) :
    (createQueryPlan bs a).batch_strategy = "province_chunks" ∧
    (createQueryPlan bs a).batches.length = (a.intent.provinces.length + bs - 1) / bs ∧
    ((createQueryPlan bs a).batches.map (fun b => b.provinces)).flatten =
      a.intent.provinces ∧
    (createQueryPlan bs a).batches.map (fun b => b.provinces) =
      chunksOf bs a.intent.provinces := by
  unfold createQueryPlan
  rw [if_neg (fun hc => hty hc.1), if_neg hty, if_pos hn]
  refine ⟨rfl, ?_, ?_, ?_⟩
  · unfold createProvinceChunkBatches
    rw [List.length_map, chunksOf_length]
  · unfold createProvinceChunkBatches
    rw [List.map_map]
    have hmap : ((fun b : BatchDict => b.provinces) ∘ (fun bp =>
        ({ type := "province_chunk", region := "", provinces := bp,
           query := "请列出以下省份的主要工作目标：" ++ String.intercalate ", " bp } : BatchDict))) =
        fun bp => bp := rfl
    rw [hmap, List.map_id']
    exact chunksOf_flatten bs hbs _
  · unfold createProvinceChunkBatches
    rw [List.map_map]
    have hmap : ((fun b : BatchDict => b.provinces) ∘ (fun bp =>
        ({ type := "province_chunk", region := "", provinces := bp,
           query := "请列出以下省份的主要工作目标：" ++ String.intercalate ", " bp } : BatchDict))) =
        fun bp => bp := rfl
    rw [hmap, List.map_id']

/-- C2 (witness): the chunking theorem at the configured `batch_size = 8`
on a query mentioning 9 entities (2 batches of 8 and 1). -/
theorem create_query_plan_chunks_witness :
    0 < queryConfigBatchSize ∧
    (analyzeQuery "列出北京天津河北山西辽宁吉林上海江苏浙江的主要目标").intent.type ≠
      "all_provinces" ∧
    5 < (analyzeQuery "列出北京天津河北山西辽宁吉林上海江苏浙江的主要目标").intent.provinces.length ∧
    ((createQueryPlan queryConfigBatchSize
        (analyzeQuery "列出北京天津河北山西辽宁吉林上海江苏浙江的主要目标")).batches.map
      (fun b => b.provinces)).flatten =
      (analyzeQuery "列出北京天津河北山西辽宁吉林上海江苏浙江的主要目标").intent.provinces := by
  refine ⟨by decide, by decide, by decide, ?_⟩
  exact (create_query_plan_chunks queryConfigBatchSize
    (analyzeQuery "列出北京天津河北山西辽宁吉林上海江苏浙江的主要目标")
    (by decide) (by decide) (by decide)).2.2.1

/-! ### C6 — the deduplication similarity measure -/

/-- C6 (counterexample): the source similarity counts characters of the
first string with multiplicity, not the distinct-character set the claim
describes: on ("aa", "a") the code yields `2 / 2 = 1` while the claimed
formula yields `1 / 2`. -/
theorem similarity_formula_counterexample :
    calculateSimilarity "aa" "a" = 1 ∧ specSimilarity "aa" "a" = 1 / 2 ∧
    calculateSimilarity "aa" "a" ≠ specSimilarity "aa" "a" := by
  have h1 : calculateSimilarity "aa" "a" = 1 := by
    unfold calculateSimilarity
    rw [if_neg (by decide), if_pos (by decide),
      show commonCharCount "aa" "a" = 2 from by decide,
      show "aa".length = 2 from rfl, show "a".length = 1 from rfl]
    rw [show max ((2 : ℕ) : ℚ) ((1 : ℕ) : ℚ) = 2 by norm_num [max_eq_left]]
    norm_num
  have h2 : specSimilarity "aa" "a" = 1 / 2 := by
    unfold specSimilarity
    rw [if_neg (by decide), if_pos (by decide),
      show "aa".data.dedup.countP (fun c => "a".data.contains c) = 1 from by decide,
      show "aa".length = 2 from rfl, show "a".length = 1 from rfl]
    rw [show max ((2 : ℕ) : ℚ) ((1 : ℕ) : ℚ) = 2 by norm_num [max_eq_left]]
    norm_num
  refine ⟨h1, h2, ?_⟩
  rw [h1, h2]
  norm_num

/-- C6 (amended): for non-empty strings the similarity equals the number
of character positions of `a` whose character occurs in `b`, divided by
`max(len a, len b)`; and whenever the similarity of a later item to an
earlier one exceeds `0.8`, the collapse of the pair keeps only the longer
string (the earlier one on a length tie). -/
theorem similarity_collapse_amended (t1 t2 a b : String) :
    (t1.data ≠ [] → t2.data ≠ [] →
      calculateSimilarity t1 t2 =
        ((t1.data.countP (fun c => decide (c ∈ t2.data))) : ℚ) /
          (max t1.length t2.length : ℚ)) ∧
    (a ≠ b → (0.8 : ℚ) < calculateSimilarity b a →
      deduplicateTargets [a, b] = if a.length < b.length then [b] else [a]) := by
  constructor
  · intro h1 h2
    have hmax : 0 < max t1.length t2.length := by
      have h3 : t1.data.length ≠ 0 := fun hc => h1 (List.eq_nil_of_length_eq_zero hc)
      exact lt_max_of_lt_left (Nat.pos_of_ne_zero h3)
    unfold calculateSimilarity commonCharCount
    rw [if_neg (by exact fun hc => hc.elim h1 h2), if_pos hmax]
    have hfun : (fun c => t2.data.contains c) = fun c => decide (c ∈ t2.data) := by
      funext c
      by_cases hc : c ∈ t2.data
      · simp [hc]
      · simp [hc]
    rw [hfun]
  · intro hne hsim
    have hb : similarityAbove b a = true := (similarityAbove_iff b a).mpr hsim
    have hdk : dedupKeepFirst [a, b] = [a, b] := by
      simp [dedupKeepFirst, Ne.symm hne]
    show (dedupKeepFirst [a, b]).foldl collapseStep [] = _
    rw [hdk]
    show collapseStep (collapseStep [] a) b = _
    have hc1 : collapseStep [] a = [a] := rfl
    rw [hc1]
    unfold collapseStep
    rw [List.find?_cons_of_pos _ hb]
    simp [List.erase_cons_head]

/-- C6 (witness): the amended theorem at concrete strings — the pair from
the spec's own example shape collapses to the longer string. -/
theorem similarity_collapse_amended_witness :
    calculateSimilarity "abcdefghi" "abcdefghij" =
      (("abcdefghi".data.countP (fun c => decide (c ∈ "abcdefghij".data))) : ℚ) /
        (max "abcdefghi".length "abcdefghij".length : ℚ) ∧
    deduplicateTargets ["abcdefghi", "abcdefghij"] = ["abcdefghij"] := by
  constructor
  · exact (similarity_collapse_amended "abcdefghi" "abcdefghij" "x" "y").1
      (by decide) (by decide)
  · have h := (similarity_collapse_amended "x" "y" "abcdefghi" "abcdefghij").2
      (by decide) ((similarityAbove_iff "abcdefghij" "abcdefghi").mp (by decide))
    rw [if_pos (by decide)] at h
    exact h

/-! ### C7 — idempotence of the near-duplicate collapse -/

/-- C7 (counterexample): the collapse is not idempotent.  With
`["aaaaaaaaa", "aaaaaaaabb", "aaaaaaaaaa"]` the first pass replaces the
first string by the third (similarity `10/10`, longer) without re-checking
the third against the second, leaving a pair of similarity `10/10` that
only a second pass collapses: the first pass keeps 2 items, the second
keeps 1. -/
theorem dedup_idempotence_counterexample :
    deduplicateTargets (deduplicateTargets ["aaaaaaaaa", "aaaaaaaabb", "aaaaaaaaaa"]) ≠
      deduplicateTargets ["aaaaaaaaa", "aaaaaaaabb", "aaaaaaaaaa"] ∧
    deduplicateTargets ["aaaaaaaaa", "aaaaaaaabb", "aaaaaaaaaa"] =
      ["aaaaaaaabb", "aaaaaaaaaa"] ∧
    deduplicateTargets ["aaaaaaaabb", "aaaaaaaaaa"] = ["aaaaaaaabb"] := by
  refine ⟨?_, by decide, by decide⟩
  decide

theorem dedupKeepFirst_foldl_nodup (l : List String) :
    ∀ acc : List String, acc.Nodup →
      (l.foldl (fun acc x => if x ∈ acc then acc else acc ++ [x]) acc).Nodup := by
  induction l with
  | nil => exact fun acc h => h
  | cons x xs ih =>
      intro acc hacc
      simp only [List.foldl]
      by_cases hx : x ∈ acc
      · rw [if_pos hx]
        exact ih acc hacc
      · rw [if_neg hx]
        refine ih (acc ++ [x]) ?_
        rw [List.nodup_append]
        refine ⟨hacc, List.nodup_singleton x, ?_⟩
        intro a ha hax
        rw [List.mem_singleton] at hax
        exact hx (hax ▸ ha)

theorem dedupKeepFirst_nodup (l : List String) : (dedupKeepFirst l).Nodup :=
  dedupKeepFirst_foldl_nodup l [] List.nodup_nil

theorem dedupKeepFirst_foldl_eq_self (l : List String) :
    ∀ acc : List String, (acc ++ l).Nodup →
      l.foldl (fun acc x => if x ∈ acc then acc else acc ++ [x]) acc = acc ++ l := by
  induction l with
  | nil => intro acc _; simp
  | cons x xs ih =>
      intro acc hacc
      have hx : x ∉ acc := by
        rw [List.nodup_append] at hacc
        exact fun hc => hacc.2.2 hc (List.mem_cons_self x xs)
      simp only [List.foldl]
      rw [if_neg hx]
      have hre : acc ++ x :: xs = (acc ++ [x]) ++ xs := by simp
      rw [hre] at hacc ⊢
      exact ih (acc ++ [x]) hacc

theorem dedupKeepFirst_eq_self (l : List String) (h : l.Nodup) : dedupKeepFirst l = l := by
  have := dedupKeepFirst_foldl_eq_self l [] (by simpa using h)
  simpa [dedupKeepFirst] using this

theorem collapse_foldl_nodup (ys : List String) :
    ∀ acc : List String, acc.Nodup → (∀ y ∈ ys, y ∉ acc) → ys.Nodup →
      (ys.foldl collapseStep acc).Nodup := by
  induction ys with
  | nil => exact fun acc h _ _ => h
  | cons y ys ih =>
      intro acc hacc hout hys
      rw [List.foldl_cons]
      have hyout := hout y (List.mem_cons_self y ys)
      have hout' : ∀ z ∈ ys, z ∉ acc := fun z hz => hout z (List.mem_cons_of_mem y hz)
      have hyne : ∀ z ∈ ys, z ≠ y := fun z hz hc =>
        (List.nodup_cons.mp hys).1 (hc ▸ hz)
      cases hf : acc.find? (fun existing => similarityAbove y existing) with
      | none =>
          have hstep : collapseStep acc y = acc ++ [y] := by
            unfold collapseStep
            rw [hf]
          rw [hstep]
          refine ih (acc ++ [y]) ?_ ?_ (List.nodup_cons.mp hys).2
          · rw [List.nodup_append]
            refine ⟨hacc, List.nodup_singleton y, ?_⟩
            intro a ha hay
            rw [List.mem_singleton] at hay
            exact hyout (hay ▸ ha)
          · intro z hz hmem
            rcases List.mem_append.mp hmem with h1 | h1
            · exact hout' z hz h1
            · exact hyne z hz (List.mem_singleton.mp h1)
      | some e =>
          by_cases hlen : e.length < y.length
          · have hstep : collapseStep acc y = acc.erase e ++ [y] := by
              unfold collapseStep
              rw [hf]
              exact if_pos hlen
            rw [hstep]
            refine ih (acc.erase e ++ [y]) ?_ ?_ (List.nodup_cons.mp hys).2
            · rw [List.nodup_append]
              refine ⟨hacc.erase e, List.nodup_singleton y, ?_⟩
              intro a ha hay
              rw [List.mem_singleton] at hay
              exact hyout (hay ▸ (List.mem_of_mem_erase ha))
            · intro z hz hmem
              rcases List.mem_append.mp hmem with h1 | h1
              · exact hout' z hz (List.mem_of_mem_erase h1)
              · exact hyne z hz (List.mem_singleton.mp h1)
          · have hstep : collapseStep acc y = acc := by
              unfold collapseStep
              rw [hf]
              exact if_neg hlen
            rw [hstep]
            exact ih acc hacc hout' (List.nodup_cons.mp hys).2

theorem deduplicateTargets_nodup (l : List String) : (deduplicateTargets l).Nodup :=
  collapse_foldl_nodup (dedupKeepFirst l) [] List.nodup_nil (by simp)
    (dedupKeepFirst_nodup l)

theorem collapse_foldl_of_dissimilar (ys : List String) :
    ∀ acc : List String, (∀ y ∈ ys, ∀ x ∈ acc, similarityAbove y x = false) →
      ys.Pairwise (fun x y => similarityAbove y x = false) →
      ys.foldl collapseStep acc = acc ++ ys := by
  induction ys with
  | nil => intro acc _ _; simp
  | cons y ys ih =>
      intro acc hdis hpw
      rw [List.foldl_cons]
      have hnone : acc.find? (fun existing => similarityAbove y existing) = none := by
        rw [List.find?_eq_none]
        intro x hx
        rw [hdis y (List.mem_cons_self y ys) x hx]
        exact Bool.false_ne_true
      have hstep : collapseStep acc y = acc ++ [y] := by
        unfold collapseStep
        rw [hnone]
      rw [hstep]
      have happ : (acc ++ [y]) ++ ys = acc ++ y :: ys := by simp
      rw [ih (acc ++ [y]) ?_ (List.pairwise_cons.mp hpw).2, happ]
      intro z hz x hx
      rcases List.mem_append.mp hx with h1 | h1
      · exact hdis z (List.mem_cons_of_mem y hz) x h1
      · rw [List.mem_singleton] at h1
        exact h1 ▸ (List.pairwise_cons.mp hpw).1 z hz

/-- C7 (amended): the collapse is idempotent exactly on the benign case:
whenever its output contains no later element whose similarity to an
earlier element exceeds `0.8`, a second application returns the output
unchanged.  In general (see the counterexample) a longer-string
replacement can introduce such a pair, and a second application collapses
strictly further. -/
theorem dedup_idempotent_amended (l : List String)
    (h : (deduplicateTargets l).Pairwise (fun x y => similarityAbove y x = false)) :
    deduplicateTargets (deduplicateTargets l) = deduplicateTargets l := by
  have hnd : (deduplicateTargets l).Nodup := deduplicateTargets_nodup l
  have hself : dedupKeepFirst (deduplicateTargets l) = deduplicateTargets l :=
    dedupKeepFirst_eq_self _ hnd
  calc deduplicateTargets (deduplicateTargets l)
      = (dedupKeepFirst (deduplicateTargets l)).foldl collapseStep [] := rfl
    _ = (deduplicateTargets l).foldl collapseStep [] := by rw [hself]
    _ = [] ++ deduplicateTargets l :=
        collapse_foldl_of_dissimilar (deduplicateTargets l) [] (by simp) h
    _ = deduplicateTargets l := by simp

/-- C7 (witness): the amended idempotence at a concrete dissimilar pair. -/
theorem dedup_idempotent_amended_witness :
    deduplicateTargets (deduplicateTargets ["abcd", "wxyz"]) =
      deduplicateTargets ["abcd", "wxyz"] :=
  dedup_idempotent_amended ["abcd", "wxyz"] (by decide)

/-! ### C8 — item recovery from an entity's lines -/

/-- C8 (counterexample): a split part longer than 3 characters is not
necessarily kept: "abcde" survives the split and the marker strip, but it
contains no target keyword and is not longer than 10 characters, so the
extractor's second filter drops it and the line yields no items at all. -/
theorem extract_targets_counterexample :
    "abcde" ∈ splitLineParts "abcde、fghij" ∧ 3 < ("abcde" : String).length ∧
    pyStrip (stripNumericMarker "abcde") = "abcde" ∧
    extractTargetsFromLine "abcde、fghij" = [] := by
  decide

/-- C8 (amended): after splitting on the first priority separator and the
length-3 filter, a part is kept iff its marker-stripped form contains a
target keyword or is longer than 10 characters; every kept item arises
from such a part. -/
theorem extract_targets_amended (line part : String) :
    (part ∈ splitLineParts line →
      (targetKeywords.any (fun kw => strContains (pyStrip (stripNumericMarker part)) kw) =
          true ∨
        10 < (pyStrip (stripNumericMarker part)).length) →
      pyStrip (stripNumericMarker part) ∈ extractTargetsFromLine line) ∧
    (∀ t ∈ extractTargetsFromLine line,
      ∃ p ∈ splitLineParts line, cleanTargetPart p = some t) := by
  constructor
  · intro hmem hcond
    unfold extractTargetsFromLine
    apply List.mem_filterMap.mpr
    refine ⟨part, hmem, ?_⟩
    unfold cleanTargetPart
    exact if_pos hcond
  · intro t ht
    exact List.mem_filterMap.mp ht

/-- C8 (witness): the amended theorem at a concrete entity line. -/
theorem extract_targets_amended_witness :
    "大力推进经济发展" ∈ splitLineParts "北京：大力推进经济发展、abc" ∧
    pyStrip (stripNumericMarker "大力推进经济发展") ∈
      extractTargetsFromLine "北京：大力推进经济发展、abc" := by
  refine ⟨by decide, ?_⟩
  exact (extract_targets_amended "北京：大力推进经济发展、abc" "大力推进经济发展").1
    (by decide) (by decide)

/-! ### C9 — aggregation of failed batch sets and the success rate -/

/-- C9: when no batch succeeded (including the empty input) aggregation
returns the fixed "no valid results" aggregate — the terminal message, an
empty entity list, zero items, and `success_rate = 0`; and whenever
aggregation produces a result, its `success_rate` is the number of
successful batches divided by the total number of batches. -/
theorem aggregation_no_success_stats (batchResults : List BatchResultIn)
    (outputFormat : String) :
    (batchResults.filter (fun r => r.success) = [] →
      aggregateBatchResults batchResults outputFormat =
        some (noResultAggregate batchResults outputFormat)) ∧
    (∀ res, aggregateBatchResults batchResults outputFormat = some res →
      res.processing_stats.success_rate =
        ((batchResults.filter (fun r => r.success)).length : ℚ) /
          (batchResults.length : ℚ)) := by
  constructor
  · intro h
    unfold aggregateBatchResults
    rw [if_pos h]
  · intro res hres
    unfold aggregateBatchResults at hres
    by_cases h : batchResults.filter (fun r => r.success) = []
    · rw [if_pos h] at hres
      rw [← Option.some.inj hres]
      rw [h]
      simp [noResultAggregate]
    · rw [if_neg h] at hres
      dsimp only at hres
      cases hr : renderContent outputFormat
          (((collectProvinceContents (batchResults.filter (fun r => r.success))).2).map
            (fun kv => (kv.1, deduplicateTargets kv.2))) with
      | none =>
          rw [hr] at hres
          exact absurd hres (by simp)
      | some fc =>
          rw [hr] at hres
          rw [← Option.some.inj hres]

/-- C9 (witness): the theorem applied to a single failing batch: the
terminal aggregate is produced and its success rate is `0 / 1`. -/
theorem aggregation_no_success_stats_witness :
    aggregateBatchResults [⟨false, "x", []⟩] "province_list" =
      some (noResultAggregate [⟨false, "x", []⟩] "province_list") ∧
    (noResultAggregate [⟨false, "x", []⟩] "province_list").processing_stats.success_rate =
      ((([⟨false, "x", []⟩] : List BatchResultIn).filter (fun r => r.success)).length : ℚ) /
        (([⟨false, "x", []⟩] : List BatchResultIn).length : ℚ) := by
  have h1 := (aggregation_no_success_stats [⟨false, "x", []⟩] "province_list").1 (by decide)
  exact ⟨h1, (aggregation_no_success_stats [⟨false, "x", []⟩] "province_list").2 _ h1⟩

/-! ### C10 — partiality of the statistics renderer -/

/-- C10: the statistics path is not total at the public aggregation
interface — one successful batch whose content contains no recognizable
entity line reaches `_format_as_statistics` with an empty entity map,
where the items-per-entity average divides by zero (modelled as `none`);
for every non-empty entity map the division is well-defined and the
renderer succeeds. -/
theorem statistics_rendering_partiality :
    aggregateBatchResults [⟨true, "hello", []⟩] "statistics" = none ∧
    (∀ pc : List (String × List String), pc ≠ [] →
      (formatAsStatistics pc).isSome = true) := by
  constructor
  · exact Option.isNone_iff_eq_none.mp (by decide)
  · intro pc hpc
    have hlen : pc.length ≠ 0 := fun hc => hpc (List.eq_nil_of_length_eq_zero hc)
    simp [formatAsStatistics, hlen]

/-- C10 (witness): the renderer succeeds on a concrete one-entity map. -/
theorem statistics_rendering_partiality_witness :
    ([("北京", ["大力推进经济发展"])] : List (String × List String)) ≠ [] ∧
    (formatAsStatistics [("北京", ["大力推进经济发展"])]).isSome = true := by
  refine ⟨by decide, ?_⟩
  exact statistics_rendering_partiality.2 [("北京", ["大力推进经济发展"])] (by decide)

/-! ### C3 — the `RetrievalResult` invariants -/

theorem mem_search_province (vs : VectorStore) (q : String) (k : ℕ) (pf tf : String)
    (cs : DocumentChunk × ℚ) (hmem : cs ∈ vs.search q k pf tf) (hpf : pf ≠ "") :
    cs.1.province = pf := by
  unfold VectorStore.search at hmem
  have hmem2 := List.mem_of_mem_take hmem
  obtain ⟨si, _, hf⟩ := List.mem_filterMap.mp hmem2
  cases hg : vs.chunks.get? si.2 with
  | none =>
      rw [hg] at hf
      exact absurd hf (by simp)
  | some chunk =>
      rw [hg] at hf
      dsimp only at hf
      by_cases hcond : (pf ≠ "" ∧ chunk.province ≠ pf) ∨ (tf ≠ "" ∧ chunk.chunk_type ≠ tf)
      · rw [if_pos hcond] at hf
        exact absurd hf (by simp)
      · rw [if_neg hcond] at hf
        push_neg at hcond
        have hcs := Option.some.inj hf
        rw [← hcs]
        exact hcond.1 hpf

theorem accumulateProvince_inv :
    ∀ (kept : List (DocumentChunk × ℚ)) (province : String)
      (acc : List DocumentChunk × Finset String),
      (∀ cs ∈ kept, cs.1.province = province) → AccInvariant acc →
      AccInvariant (accumulateProvince acc province kept) := by
  intro kept
  induction kept with
  | nil => exact fun province acc _ h => h
  | cons cs kept ih =>
      intro province acc hkept hacc
      show AccInvariant (kept.foldl
        (fun a cs => (a.1 ++ [cs.1], insert province a.2)) (acc.1 ++ [cs.1], insert province acc.2))
      refine ih province (acc.1 ++ [cs.1], insert province acc.2)
        (fun c hc => hkept c (List.mem_cons_of_mem cs hc)) ?_
      show insert province acc.2 = ((acc.1 ++ [cs.1]).map (fun c => c.province)).toFinset
      rw [List.map_append, List.toFinset_append, hacc]
      simp only [List.map_cons, List.map_nil, List.toFinset_cons, List.toFinset_nil,
        insert_emptyc_eq]
      rw [hkept cs (List.mem_cons_self cs kept), Finset.union_comm, ← Finset.insert_eq]

theorem foldl_accumulate_inv (keptFn : String → List (DocumentChunk × ℚ))
    (hkept : ∀ p, p ≠ "" → ∀ cs ∈ keptFn p, cs.1.province = p) :
    ∀ (ps : List String) (acc : List DocumentChunk × Finset String),
      (∀ p ∈ ps, p ≠ "") → AccInvariant acc →
      AccInvariant (ps.foldl (fun acc province =>
        accumulateProvince acc province (keptFn province)) acc) := by
  intro ps
  induction ps with
  | nil => exact fun acc _ h => h
  | cons p ps ih =>
      intro acc hne hacc
      rw [List.foldl_cons]
      exact ih _ (fun x hx => hne x (List.mem_cons_of_mem p hx))
        (accumulateProvince_inv _ p acc
          (hkept p (hne p (List.mem_cons_self p ps))) hacc)

theorem foldl_accumulate_inv_guarded (keptFn : String → List (DocumentChunk × ℚ))
    (hkept : ∀ p, p ≠ "" → ∀ cs ∈ keptFn p, cs.1.province = p) :
    ∀ (ps : List String) (acc : List DocumentChunk × Finset String),
      AccInvariant acc →
      AccInvariant (ps.foldl (fun acc province =>
        if province ∉ PROVINCES then acc
        else accumulateProvince acc province (keptFn province)) acc) := by
  intro ps
  induction ps with
  | nil => exact fun acc h => h
  | cons p ps ih =>
      intro acc hacc
      rw [List.foldl_cons]
      by_cases hp : p ∉ PROVINCES
      · rw [if_pos hp]
        exact ih acc hacc
      · rw [if_neg hp]
        rw [not_not] at hp
        have hne : p ≠ "" := by
          intro he
          rw [he] at hp
          exact (by decide : "" ∉ PROVINCES) hp
        exact ih _ (accumulateProvince_inv _ p acc (hkept p hne) hacc)

theorem PROVINCES_ne_empty_str : ∀ p ∈ PROVINCES, p ≠ "" := by decide

theorem mentionedProvinces_ne_empty_str (q : String) : "" ∉ mentionedProvinces q := by
  intro hmem
  exact (by decide : "" ∉ PROVINCES) (List.mem_of_mem_filter hmem)

theorem retrieveForAllProvinces_inv (vs : VectorStore) (q : String) (k : ℕ) :
    ResultInvariant (retrieveForAllProvinces vs q k) := by
  refine ⟨rfl, ?_⟩
  exact foldl_accumulate_inv (fun p => (vs.search q (k * 4) p "").take k)
    (fun p hp cs hcs => mem_search_province vs q (k * 4) p "" cs
      (List.mem_of_mem_take hcs) hp)
    PROVINCES ([], ∅) PROVINCES_ne_empty_str rfl

theorem retrieveForSpecificProvinces_inv (vs : VectorStore) (q : String)
    (provs : List String) (k : ℕ) :
    ResultInvariant (retrieveForSpecificProvinces vs q provs k) := by
  refine ⟨rfl, ?_⟩
  exact foldl_accumulate_inv_guarded (fun p => (vs.search q (k * 3) p "").take k)
    (fun p hp cs hcs => mem_search_province vs q (k * 3) p "" cs
      (List.mem_of_mem_take hcs) hp)
    provs ([], ∅) rfl

theorem retrieveForComparison_inv (vs : VectorStore) (q : String) (provs : List String)
    (tk k : ℕ) (hprovs : "" ∉ provs) :
    ResultInvariant (retrieveForComparison vs q provs tk k) := by
  unfold retrieveForComparison
  by_cases hne : provs ≠ []
  · rw [if_pos hne]
    refine ⟨rfl, ?_⟩
    exact foldl_accumulate_inv (fun p => (vs.search q (k * 3) p "").take k)
      (fun p hp cs hcs => mem_search_province vs q (k * 3) p "" cs
        (List.mem_of_mem_take hcs) hp)
      provs ([], ∅) (fun p hp he => hprovs (he ▸ hp)) rfl
  · rw [if_neg hne]
    exact ⟨rfl, rfl⟩

theorem retrieveByTopic_inv (vs : VectorStore) (q : String) (ct : String) (k : ℕ) :
    ResultInvariant (retrieveByTopic vs q ct k) :=
  ⟨rfl, rfl⟩

theorem retrieveGeneral_inv (vs : VectorStore) (q : String) :
    ResultInvariant (retrieveGeneral vs q) :=
  ⟨rfl, rfl⟩

theorem truncateResults_inv (r : RetrievalResult) (m : ℕ) (h : ResultInvariant r) :
    ResultInvariant (truncateResults r m) := by
  unfold truncateResults
  by_cases hc : r.total_chars ≤ m
  · rw [if_pos hc]
    exact h
  · rw [if_neg hc]
    exact ⟨rfl, rfl⟩

theorem smartRetrieve_inv (vs : VectorStore) (q : String) :
    ResultInvariant (smartRetrieve vs q) := by
  have hmain : ∀ pr : RetrievalResult × ℕ, ResultInvariant pr.1 →
      ResultInvariant (if pr.2 < pr.1.total_chars then truncateResults pr.1 pr.2 else pr.1) := by
    intro pr hpr
    by_cases hc : pr.2 < pr.1.total_chars
    · rw [if_pos hc]
      exact truncateResults_inv pr.1 pr.2 hpr
    · rw [if_neg hc]
      exact hpr
  show ResultInvariant (smartRetrieve vs q)
  unfold smartRetrieve
  apply hmain
  by_cases h1 : (identifyQueryIntent q).type = "all_provinces"
  · rw [if_pos h1]
    exact retrieveForAllProvinces_inv vs q 8
  · rw [if_neg h1]
    by_cases h2 : (identifyQueryIntent q).type = "single_province"
    · rw [if_pos h2]
      exact retrieveForSpecificProvinces_inv vs q _ 30
    · rw [if_neg h2]
      by_cases h3 : (identifyQueryIntent q).type = "multi_province"
      · rw [if_pos h3]
        exact retrieveForSpecificProvinces_inv vs q _ 15
      · rw [if_neg h3]
        by_cases h4 : (identifyQueryIntent q).type = "comparison"
        · rw [if_pos h4]
          refine retrieveForComparison_inv vs q _ 150 25 ?_
          exact mentionedProvinces_ne_empty_str q
        · rw [if_neg h4]
          by_cases h5 : (identifyQueryIntent q).type = "statistics"
          · rw [if_pos h5]
            exact retrieveByTopic_inv vs q "target" 120
          · rw [if_neg h5]
            exact retrieveGeneral_inv vs q

/-- C3: every `RetrievalResult` produced by the retrieval operations —
per-entity retrieval for all or specific entities, comparison retrieval
(as invoked in the pipeline, where the entity list never contains the
falsy string), topic retrieval, general retrieval with adjacency
expansion, truncation of an invariant-satisfying result, and the full
`smart_retrieve` dispatch — satisfies `total_chars = Σ char_count` and
`provinces = {c.province : c ∈ chunks}`. -/
theorem retrieval_result_invariants (vs : VectorStore) (q ct : String)
    (provs : List String) (k tk m : ℕ) (r : RetrievalResult) :
    ResultInvariant (retrieveForAllProvinces vs q k) ∧
    ResultInvariant (retrieveForSpecificProvinces vs q provs k) ∧
    ("" ∉ provs → ResultInvariant (retrieveForComparison vs q provs tk k)) ∧
    ResultInvariant (retrieveByTopic vs q ct k) ∧
    ResultInvariant (retrieveGeneral vs q) ∧
    (ResultInvariant r → ResultInvariant (truncateResults r m)) ∧
    ResultInvariant (smartRetrieve vs q) :=
  ⟨retrieveForAllProvinces_inv vs q k,
   retrieveForSpecificProvinces_inv vs q provs k,
   fun h => retrieveForComparison_inv vs q provs tk k h,
   retrieveByTopic_inv vs q ct k,
   retrieveGeneral_inv vs q,
   fun h => truncateResults_inv r m h,
   smartRetrieve_inv vs q⟩

/-- C3 (witness): the invariants instantiated at a concrete store (two
chunks, a ranking function listing both) and a concrete invariant-holding
result fed to truncation. -/
theorem retrieval_result_invariants_witness :
    ("" ∉ (["北京"] : List String)) ∧
    ResultInvariant (retrieveForComparison
      ⟨[⟨"c0", "北京", "内容目标", "content", [], 4, "s", 0, 4, 0⟩],
        fun _ _ => [(1, 0)]⟩ "q" ["北京"] 5 2) ∧
    (ResultInvariant ⟨[], ∅, 0, "general", "x"⟩ →
      ResultInvariant (truncateResults ⟨[], ∅, 0, "general", "x"⟩ 10)) ∧
    ResultInvariant (truncateResults ⟨[], ∅, 0, "general", "x"⟩ 10) := by
  have h := retrieval_result_invariants
    ⟨[⟨"c0", "北京", "内容目标", "content", [], 4, "s", 0, 4, 0⟩], fun _ _ => [(1, 0)]⟩
    "q" "target" ["北京"] 2 5 10 ⟨[], ∅, 0, "general", "x"⟩
  have hinv : ResultInvariant ⟨[], ∅, 0, "general", "x"⟩ := ⟨rfl, rfl⟩
  exact ⟨by decide, h.2.2.1 (by decide), h.2.2.2.2.2.1, h.2.2.2.2.2.1 hinv⟩

/-! ### C4 — the character-budget bound of truncation -/

theorem mkTruncatedChunk_char_count_le (c : DocumentChunk) (rem : ℕ) (h : 50 ≤ rem) :
    (mkTruncatedChunk c rem).char_count ≤ rem - 47 := by
  show (pyTake c.content (rem - 50) ++ "...").length ≤ rem - 47
  rw [String.length_append]
  have h1 : (pyTake c.content (rem - 50)).length ≤ rem - 50 := by
    show (c.content.data.take (rem - 50)).length ≤ rem - 50
    rw [List.length_take]
    exact min_le_left _ _
  have h2 : ("..." : String).length = 3 := rfl
  omega

theorem greedyTruncate_sum_le (m : ℕ) :
    ∀ (l : List DocumentChunk) (cur : ℕ), cur ≤ m →
      cur + sumChars (greedyTruncate m cur l) ≤ m := by
  intro l
  induction l with
  | nil =>
      intro cur hcur
      simp [greedyTruncate, sumChars]
      exact hcur
  | cons c rest ih =>
      intro cur hcur
      unfold greedyTruncate
      by_cases h : cur + c.char_count ≤ m
      · rw [if_pos h]
        have hrec := ih (cur + c.char_count) h
        simp only [sumChars, List.map_cons, List.sum_cons] at hrec ⊢
        omega
      · rw [if_neg h]
        by_cases h2 : 200 < m - cur
        · rw [if_pos h2]
          have hle := mkTruncatedChunk_char_count_le c (m - cur) (by omega)
          simp only [sumChars, List.map_cons, List.map_nil, List.sum_cons, List.sum_nil]
          omega
        · rw [if_neg h2]
          simp only [sumChars, List.map_nil, List.sum_nil]
          omega

theorem greedyTruncate_extra_le_one (m : ℕ) (S : List DocumentChunk) :
    ∀ (l : List DocumentChunk) (cur : ℕ), (∀ c ∈ l, c ∈ S) →
      ((greedyTruncate m cur l).filter (fun c => decide (c ∉ S))).length ≤ 1 := by
  intro l
  induction l with
  | nil =>
      intro cur _
      simp [greedyTruncate]
  | cons c rest ih =>
      intro cur hsub
      unfold greedyTruncate
      by_cases h : cur + c.char_count ≤ m
      · rw [if_pos h]
        have hc : c ∈ S := hsub c (List.mem_cons_self c rest)
        rw [List.filter_cons]
        rw [if_neg (by simp [hc])]
        exact ih (cur + c.char_count) (fun x hx => hsub x (List.mem_cons_of_mem c hx))
      · rw [if_neg h]
        by_cases h2 : 200 < m - cur
        · rw [if_pos h2]
          calc ((([mkTruncatedChunk c (m - cur)]).filter (fun c => decide (c ∉ S))).length)
              ≤ ([mkTruncatedChunk c (m - cur)]).length := List.length_filter_le _ _
            _ = 1 := rfl
        · rw [if_neg h2]
          simp

theorem mem_insertDescBy {α : Type} (key : α → ℕ) (x : α) :
    ∀ (l : List α) (a : α), a ∈ insertDescBy key x l ↔ a = x ∨ a ∈ l := by
  intro l
  induction l with
  | nil =>
      intro a
      simp [insertDescBy]
  | cons y ys ih =>
      intro a
      unfold insertDescBy
      by_cases h : key x < key y
      · rw [if_pos h]
        rw [List.mem_cons, ih a, List.mem_cons]
        tauto
      · rw [if_neg h]
        simp [List.mem_cons]

theorem mem_sortDescBy {α : Type} (key : α → ℕ) :
    ∀ (l : List α) (a : α), a ∈ sortDescBy key l ↔ a ∈ l := by
  intro l
  induction l with
  | nil => intro a; simp [sortDescBy]
  | cons x xs ih =>
      intro a
      show a ∈ insertDescBy key x (sortDescBy key xs) ↔ _
      rw [mem_insertDescBy key x _ a, ih a, List.mem_cons]

theorem allProvincesTruncate_foldl_inv (quota : ℕ) :
    ∀ (chunks : List DocumentChunk) (acc : List DocumentChunk × (String → ℕ)),
      (∀ p, acc.2 p ≤ quota) →
      (∀ p, sumChars (acc.1.filter (fun c => c.province = p)) = acc.2 p) →
      (sumChars acc.1 =
        ∑ p ∈ (acc.1.map (fun c => c.province)).toFinset, acc.2 p) →
      ((∀ p, (chunks.foldl (allProvStep quota) acc).2 p ≤ quota) ∧
       (∀ p, sumChars ((chunks.foldl (allProvStep quota) acc).1.filter
          (fun c => c.province = p)) = (chunks.foldl (allProvStep quota) acc).2 p) ∧
       (sumChars (chunks.foldl (allProvStep quota) acc).1 =
        ∑ p ∈ ((chunks.foldl (allProvStep quota) acc).1.map
          (fun c => c.province)).toFinset, (chunks.foldl (allProvStep quota) acc).2 p) ∧
       (∀ x ∈ (chunks.foldl (allProvStep quota) acc).1, x ∈ acc.1 ∨ x ∈ chunks)) := by
  intro chunks
  induction chunks with
  | nil =>
      intro acc h1 h2 h3
      exact ⟨h1, h2, h3, fun x hx => Or.inl hx⟩
  | cons c rest ih =>
      intro acc h1 h2 h3
      rw [List.foldl_cons]
      by_cases hacc : acc.2 c.province + c.char_count ≤ quota
      · have hstep : allProvStep quota acc c =
            (acc.1 ++ [c],
              Function.update acc.2 c.province (acc.2 c.province + c.char_count)) := by
          unfold allProvStep
          rw [if_pos hacc]
        rw [hstep]
        have hnew1 : ∀ p,
            (Function.update acc.2 c.province (acc.2 c.province + c.char_count)) p ≤ quota := by
          intro p
          by_cases hp : p = c.province
          · rw [hp, Function.update_same]
            exact hacc
          · rw [Function.update_noteq hp]
            exact h1 p
        have hnew2 : ∀ p, sumChars ((acc.1 ++ [c]).filter (fun x => x.province = p)) =
            (Function.update acc.2 c.province (acc.2 c.province + c.char_count)) p := by
          intro p
          rw [List.filter_append]
          by_cases hp : p = c.province
          · rw [hp, Function.update_same]
            have hcfil : ([c].filter (fun x => x.province = c.province)) = [c] := by
              simp [List.filter_cons]
            rw [hcfil]
            have hh := h2 c.province
            simp only [sumChars, List.map_append, List.sum_append, List.map_cons,
              List.map_nil, List.sum_cons, List.sum_nil] at hh ⊢
            omega
          · rw [Function.update_noteq hp]
            have hcfil : ([c].filter (fun x => x.province = p)) = [] := by
              simp only [List.filter_cons, List.filter_nil, decide_eq_true_eq]
              rw [if_neg (fun hc => hp hc.symm)]
            rw [hcfil, List.append_nil]
            exact h2 p
        have hnew3 : sumChars (acc.1 ++ [c]) =
            ∑ p ∈ ((acc.1 ++ [c]).map (fun x => x.province)).toFinset,
              (Function.update acc.2 c.province (acc.2 c.province + c.char_count)) p := by
          have hset : ((acc.1 ++ [c]).map (fun x => x.province)).toFinset =
              insert c.province ((acc.1.map (fun x => x.province)).toFinset) := by
            rw [List.map_append, List.toFinset_append]
            simp only [List.map_cons, List.map_nil, List.toFinset_cons, List.toFinset_nil,
              insert_emptyc_eq]
            rw [Finset.union_comm, ← Finset.insert_eq]
          rw [hset]
          have hsumapp : sumChars (acc.1 ++ [c]) = sumChars acc.1 + c.char_count := by
            simp [sumChars]
          by_cases hqin : c.province ∈ (acc.1.map (fun x => x.province)).toFinset
          · rw [Finset.insert_eq_self.mpr hqin]
            have e1 : ∑ p ∈ (acc.1.map (fun x => x.province)).toFinset,
                (Function.update acc.2 c.province (acc.2 c.province + c.char_count)) p =
                (acc.2 c.province + c.char_count) +
                  ∑ p ∈ (acc.1.map (fun x => x.province)).toFinset \ {c.province}, acc.2 p :=
              Finset.sum_update_of_mem hqin acc.2 _
            have e2 : acc.2 c.province +
                ∑ p ∈ ((acc.1.map (fun x => x.province)).toFinset).erase c.province,
                  acc.2 p = ∑ p ∈ (acc.1.map (fun x => x.province)).toFinset, acc.2 p :=
              Finset.add_sum_erase _ acc.2 hqin
            rw [← Finset.erase_eq] at e1
            rw [e1, hsumapp, h3]
            omega
          · rw [Finset.sum_insert hqin, Function.update_same]
            have e3 : ∑ p ∈ (acc.1.map (fun x => x.province)).toFinset,
                (Function.update acc.2 c.province (acc.2 c.province + c.char_count)) p =
                ∑ p ∈ (acc.1.map (fun x => x.province)).toFinset, acc.2 p := by
              apply Finset.sum_congr rfl
              intro p hp
              refine Function.update_noteq ?_ _ acc.2
              intro he
              rw [he] at hp
              exact hqin hp
            have hq0 : acc.2 c.province = 0 := by
              have hfil : acc.1.filter (fun x => x.province = c.province) = [] := by
                rw [List.filter_eq_nil_iff]
                intro a ha
                simp only [decide_eq_true_eq]
                intro hap
                exact hqin (List.mem_toFinset.mpr (List.mem_map.mpr ⟨a, ha, hap⟩))
              have hh := h2 c.province
              rw [hfil] at hh
              simp only [sumChars, List.map_nil, List.sum_nil] at hh
              omega
            rw [e3, hsumapp, h3]
            omega
        obtain ⟨g1, g2, g3, g4⟩ := ih (acc.1 ++ [c],
          Function.update acc.2 c.province (acc.2 c.province + c.char_count))
          hnew1 hnew2 hnew3
        refine ⟨g1, g2, g3, ?_⟩
        intro x hx
        rcases g4 x hx with hx1 | hx1
        · rcases List.mem_append.mp hx1 with hx2 | hx2
          · exact Or.inl hx2
          · exact Or.inr (List.mem_cons.mpr (Or.inl (List.mem_singleton.mp hx2)))
        · exact Or.inr (List.mem_cons_of_mem c hx1)
      · have hstep : allProvStep quota acc c = acc := by
          unfold allProvStep
          rw [if_neg hacc]
        rw [hstep]
        obtain ⟨g1, g2, g3, g4⟩ := ih acc h1 h2 h3
        refine ⟨g1, g2, g3, ?_⟩
        intro x hx
        rcases g4 x hx with hx1 | hx1
        · exact Or.inl hx1
        · exact Or.inr (List.mem_cons_of_mem c hx1)

theorem allProvincesTruncate_spec (quota : ℕ) (chunks : List DocumentChunk) :
    (∀ p, sumChars ((allProvincesTruncate quota chunks).filter
      (fun c => c.province = p)) ≤ quota) ∧
    (∀ x ∈ allProvincesTruncate quota chunks, x ∈ chunks) ∧
    sumChars (allProvincesTruncate quota chunks) ≤
      ((chunks.map (fun c => c.province)).toFinset).card * quota := by
  obtain ⟨g1, g2, g3, g4⟩ := allProvincesTruncate_foldl_inv quota chunks ([], fun _ => 0)
    (fun p => Nat.zero_le quota) (fun p => rfl) (by simp [sumChars])
  refine ⟨?_, ?_, ?_⟩
  · intro p
    show sumChars ((chunks.foldl (allProvStep quota) ([], fun _ => 0)).1.filter
      (fun c => c.province = p)) ≤ quota
    rw [g2 p]
    exact g1 p
  · intro x hx
    rcases g4 x hx with h | h
    · exact absurd h (List.not_mem_nil x)
    · exact h
  · have hsub : ((chunks.foldl (allProvStep quota) ([], fun _ => 0)).1.map
        (fun c => c.province)).toFinset ⊆ (chunks.map (fun c => c.province)).toFinset := by
      intro a ha
      obtain ⟨x, hx, hxa⟩ := List.mem_map.mp (List.mem_toFinset.mp ha)
      rcases g4 x hx with h | h
      · exact absurd h (List.not_mem_nil x)
      · exact List.mem_toFinset.mpr (List.mem_map.mpr ⟨x, h, hxa⟩)
    calc sumChars (allProvincesTruncate quota chunks)
        = ∑ p ∈ ((chunks.foldl (allProvStep quota) ([], fun _ => 0)).1.map
            (fun c => c.province)).toFinset,
            (chunks.foldl (allProvStep quota) ([], fun _ => 0)).2 p := g3
      _ ≤ ((chunks.foldl (allProvStep quota) ([], fun _ => 0)).1.map
            (fun c => c.province)).toFinset.card • quota :=
          Finset.sum_le_card_nsmul _ _ _ (fun p _ => g1 p)
      _ = ((chunks.foldl (allProvStep quota) ([], fun _ => 0)).1.map
            (fun c => c.province)).toFinset.card * quota := nsmul_eq_mul _ _
      _ ≤ ((chunks.map (fun c => c.province)).toFinset).card * quota :=
          Nat.mul_le_mul_right quota (Finset.card_le_card hsub)

/-- C4: truncation never exceeds the budget — the truncated result's
`total_chars` is at most `max_chars`, at most one chunk of the output is
not a whole chunk of the input (the sliced prefix), and on the
`all_provinces` path each entity's chunks are kept within the evenly
divided budget `max_chars / |entities|`, accepted greedily in original
order. -/
theorem truncation_budget (r : RetrievalResult) (m : ℕ) (hInv : ResultInvariant r) :
    (truncateResults r m).total_chars ≤ m ∧
    ((truncateResults r m).chunks.filter (fun c => decide (c ∉ r.chunks))).length ≤ 1 ∧
    (r.query_type = "all_provinces" → m < r.total_chars →
      ∀ p, sumChars ((truncateResults r m).chunks.filter (fun c => c.province = p)) ≤
        m / r.provinces.card) := by
  unfold truncateResults
  by_cases hc : r.total_chars ≤ m
  · rw [if_pos hc]
    refine ⟨hc, ?_, ?_⟩
    · have hnil : r.chunks.filter (fun c => decide (c ∉ r.chunks)) = [] := by
        rw [List.filter_eq_nil_iff]
        intro a ha
        simp [ha]
      rw [hnil]
      simp
    · intro _ hm
      omega
  · rw [if_neg hc]
    by_cases hq : r.query_type = "all_provinces"
    · rw [if_pos hq]
      dsimp only
      obtain ⟨hper, hmem, hsum⟩ := allProvincesTruncate_spec (m / r.provinces.card) r.chunks
      refine ⟨?_, ?_, ?_⟩
      · have hcard : (r.chunks.map (fun c => c.province)).toFinset.card =
            r.provinces.card := by
          rw [hInv.2]
        rw [hcard] at hsum
        calc ((allProvincesTruncate (m / r.provinces.card) r.chunks).map
              (fun c => c.char_count)).sum
            = sumChars (allProvincesTruncate (m / r.provinces.card) r.chunks) := rfl
          _ ≤ r.provinces.card * (m / r.provinces.card) := hsum
          _ ≤ m := by
              rw [Nat.mul_comm]
              exact Nat.div_mul_le_self m _
      · have hnil : ((allProvincesTruncate (m / r.provinces.card) r.chunks).filter
            (fun c => decide (c ∉ r.chunks))) = [] := by
          rw [List.filter_eq_nil_iff]
          intro a ha
          simp [hmem a ha]
        rw [hnil]
        simp
      · intro _ _ p
        exact hper p
    · rw [if_neg hq]
      dsimp only
      refine ⟨?_, ?_, fun h _ => absurd h hq⟩
      · have hg := greedyTruncate_sum_le m (sortDescBy chunkScoreScaled r.chunks) 0
          (Nat.zero_le m)
        simpa [sumChars] using hg
      · exact greedyTruncate_extra_le_one m r.chunks (sortDescBy chunkScoreScaled r.chunks) 0
          (fun c hcm => (mem_sortDescBy chunkScoreScaled r.chunks c).mp hcm)

/-- C4 (witness): the budget theorem at a concrete triggered truncation
(one 5-character chunk against a budget of 3). -/
theorem truncation_budget_witness :
    ResultInvariant ⟨[⟨"c1", "北京", "abcde", "content", [], 5, "s", 0, 5, 0⟩],
      {"北京"}, 5, "general", "x"⟩ ∧
    (truncateResults ⟨[⟨"c1", "北京", "abcde", "content", [], 5, "s", 0, 5, 0⟩],
      {"北京"}, 5, "general", "x"⟩ 3).total_chars ≤ 3 := by
  have hinv : ResultInvariant ⟨[⟨"c1", "北京", "abcde", "content", [], 5, "s", 0, 5, 0⟩],
      {"北京"}, 5, "general", "x"⟩ := ⟨rfl, by decide⟩
  exact ⟨hinv, (truncation_budget _ 3 hinv).1⟩

/-! ### C5 — no underflow fallback in truncation -/

/-- C5 (counterexample): the claimed fallback does not exist.  A result
with one 300-character chunk truncated to a budget of 100 (≤ 200, so the
partial-slice branch is skipped) produces an empty chunk list, although
the input had a chunk. -/
theorem truncation_underflow_counterexample :
    underflowResult.chunks ≠ [] ∧
    (truncateResults underflowResult 100).chunks = [] ∧
    (truncateResults underflowResult 100).total_chars = 0 := by
  refine ⟨by decide, by decide, by decide⟩

/-- C5 (amended): when the budget is at most 200 characters and no chunk
fits it whole, the non-`all_provinces` truncation path returns an empty
result — there is no fallback to the highest-scoring chunk; a sliced
prefix of the best chunk is emitted only when more than 200 characters of
budget remain. -/
theorem truncation_underflow_amended (r : RetrievalResult) (m : ℕ)
    (hq : r.query_type ≠ "all_provinces") (hm : m ≤ 200) (htrig : m < r.total_chars)
    (hbig : ∀ c ∈ r.chunks, m < c.char_count) :
    (truncateResults r m).chunks = [] ∧ (truncateResults r m).total_chars = 0 := by
  unfold truncateResults
  rw [if_neg (by omega), if_neg hq]
  dsimp only
  have hempty : greedyTruncate m 0 (sortDescBy chunkScoreScaled r.chunks) = [] := by
    cases hs : sortDescBy chunkScoreScaled r.chunks with
    | nil => rfl
    | cons c rest =>
        have hcmem : c ∈ r.chunks := (mem_sortDescBy chunkScoreScaled r.chunks c).mp
          (hs ▸ List.mem_cons_self c rest)
        unfold greedyTruncate
        rw [if_neg (by have := hbig c hcmem; omega), if_neg (by omega)]
  rw [hempty]
  exact ⟨rfl, rfl⟩

/-- C5 (witness): the amended theorem applied to the concrete one-chunk
underflow result. -/
theorem truncation_underflow_amended_witness :
    underflowResult.query_type ≠ "all_provinces" ∧ (100 : ℕ) ≤ 200 ∧
    100 < underflowResult.total_chars ∧
    (truncateResults underflowResult 100).chunks = [] := by
  refine ⟨by decide, by decide, by decide, ?_⟩
  exact (truncation_underflow_amended underflowResult 100 (by decide) (by decide) (by decide)
    (by decide)).1
